import Mathlib

/-!
Verification of the CF_Survivor survivor-pool rule engine.

This file gives a shallow embedding of the pick-eligibility, pick-submission,
result-processing, auto-pick and standings logic of `app.py` / `models.py` /
`display_utils.py`, and proves (or refutes) the stated properties of that
logic.  Database rows are modelled as structures, tables as lists (list order
models the iteration order of the corresponding SQL queries), SQLAlchemy
`.first()` as `List.head?`, nullable columns as `Option`, float columns as
`ℚ`, and timezone-aware instants as `Int` (only their ordering matters to the
rule engine).
-/

namespace CFSurvivor

/-- `models.py` `Team`: id and unique name (conference is irrelevant here). -/
structure Team where
  id : Nat
  name : String
  deriving DecidableEq, Repr

/-- `models.py` `Week` plus the `is_playoff_week` column added by
`migrate_playoff_fields.py`. -/
structure Week where
  id : Nat
  weekNumber : Nat
  deadline : Int
  isActive : Bool
  isComplete : Bool
  isPlayoffWeek : Bool
  deriving DecidableEq, Repr

/-- `models.py` `Game`: nullable team references with raw-name fallbacks,
signed home spread (negative = home favored), nullable kickoff instant and
tri-state result. -/
structure Game where
  id : Nat
  weekId : Nat
  homeTeamId : Option Nat
  awayTeamId : Option Nat
  homeTeamName : Option String
  awayTeamName : Option String
  homeTeamSpread : ℚ
  gameTime : Option Int
  homeTeamWon : Option Bool
  deriving DecidableEq, Repr

/-- `models.py` `User` (fields the rule engine touches). -/
structure User where
  id : Nat
  username : String
  livesRemaining : Int
  isEliminated : Bool
  cumulativeSpread : ℚ
  deriving DecidableEq, Repr

/-- `models.py` `Pick`: one row per (user, week), tri-state `is_correct`. -/
structure Pick where
  id : Nat
  userId : Nat
  weekId : Nat
  teamId : Nat
  isCorrect : Option Bool
  createdAt : Int
  deriving DecidableEq, Repr

/-- The relational store the engine reads and writes. -/
structure DB where
  users : List User
  teams : List Team
  weeks : List Week
  games : List Game
  picks : List Pick
  deriving DecidableEq, Repr

/-- `Team.query.get(team_id)` / relationship resolution by primary key. -/
def findTeam (db : DB) (tid : Nat) : Option Team :=
  (db.teams.filter (fun t => t.id == tid)).head?

/-- `Week.query.get(week_id)`. -/
def findWeekById (db : DB) (wid : Nat) : Option Week :=
  (db.weeks.filter (fun w => w.id == wid)).head?

/-- `Week.query.filter_by(week_number=n).first()`. -/
def findWeekByNumber (db : DB) (n : Nat) : Option Week :=
  (db.weeks.filter (fun w => w.weekNumber == n)).head?

/-- `User.query.get(user_id)`. -/
def findUser (db : DB) (uid : Nat) : Option User :=
  (db.users.filter (fun u => u.id == uid)).head?

/-- `Game.query.filter_by(week_id=wid).all()`. -/
def weekGames (db : DB) (wid : Nat) : List Game :=
  db.games.filter (fun g => g.weekId == wid)

/-- `Pick.query.filter_by(week_id=wid).all()`. -/
def weekPicks (db : DB) (wid : Nat) : List Pick :=
  db.picks.filter (fun p => p.weekId == wid)

/-- `Pick.query.filter_by(user_id=uid, week_id=wid).first()`. -/
def findPick (db : DB) (uid wid : Nat) : Option Pick :=
  (db.picks.filter (fun p => p.userId == uid && p.weekId == wid)).head?

/-- The query `Game.query.filter_by(week_id=wid).filter(or_(home_team_id ==
tid, away_team_id == tid)).first()` used by `make_pick` and
`calculate_cumulative_spread` to locate the game a team plays in. -/
def teamGame (db : DB) (wid tid : Nat) : Option Game :=
  ((weekGames db wid).filter
    (fun g => g.homeTeamId == some tid || g.awayTeamId == some tid)).head?

/-- The variant used by `process_week_results`, which additionally requires
`Game.home_team_won != None`. -/
def teamGameWithResult (db : DB) (wid tid : Nat) : Option Game :=
  ((weekGames db wid).filter
    (fun g => (g.homeTeamId == some tid || g.awayTeamId == some tid)
      && g.homeTeamWon != none)).head?

/-- The `game.home_team` relationship: resolves the nullable foreign key. -/
def gameHomeTeam (db : DB) (g : Game) : Option Team :=
  g.homeTeamId.bind (findTeam db)

/-- The `game.away_team` relationship. -/
def gameAwayTeam (db : DB) (g : Game) : Option Team :=
  g.awayTeamId.bind (findTeam db)

/-- `display_utils.is_week_playoff` (the `is_playoff_week` column is present
after `migrate_playoff_fields.py`, so the `hasattr` branch is taken). -/
def is_week_playoff (w : Week) : Bool :=
  w.isPlayoffWeek

/-- `display_utils.get_cfp_eliminated_teams`: the names of the losers of
every playoff-week game with a recorded winner. -/
def get_cfp_eliminated_teams (db : DB) : List String :=
  ((db.games.filter (fun g =>
      (match findWeekById db g.weekId with
       | some w => w.isPlayoffWeek
       | none => false)
      && g.homeTeamWon != none))).filterMap (fun g =>
    match g.homeTeamWon with
    | some true =>
      match gameAwayTeam db g with
      | some t => some t.name
      | none => g.awayTeamName
    | _ =>
      match gameHomeTeam db g with
      | some t => some t.name
      | none => g.homeTeamName)

/-- The phase-scoped used-team query that `make_pick` (POST and GET branches)
and `process_autopicks` each issue verbatim:
`db.session.query(Pick.team_id).join(Week).filter(Pick.user_id == uid,
Week.is_playoff_week == playoff, Pick.week_id != wid)`. -/
def usedTeamIds (db : DB) (uid wid : Nat) (playoff : Bool) : List Nat :=
  (db.picks.filter (fun p =>
      p.userId == uid
      && (match findWeekById db p.weekId with
          | some w => w.isPlayoffWeek == playoff
          | none => false)
      && p.weekId != wid)).map (fun p => p.teamId)

/-- `models.py` `User.calculate_cumulative_spread`: fold over all of the
user's picks; per pick locate its game, take the picked team's signed
spread, add its absolute value if the team was favored (spread < 0) and
subtract the (positive) spread otherwise. -/
def calculate_cumulative_spread (db : DB) (uid : Nat) : ℚ :=
  (db.picks.filter (fun p => p.userId == uid)).foldl (fun total p =>
    match teamGame db p.weekId p.teamId with
    | some g =>
      let teamSpread :=
        if g.homeTeamId == some p.teamId then g.homeTeamSpread
        else -g.homeTeamSpread
      if teamSpread < 0 then total + |teamSpread| else total - teamSpread
    | none => total) 0

/-- Fresh primary key for an inserted pick row. -/
def freshPickId (db : DB) : Nat :=
  db.picks.foldl (fun m p => max m p.id) 0 + 1

/-- Replace the stored `cumulative_spread` of user `uid` by a recomputation
(the `user.calculate_cumulative_spread()` call sites). -/
def recalcSpread (db : DB) (uid : Nat) : DB :=
  { db with users := db.users.map (fun u =>
      if u.id == uid then { u with cumulativeSpread := calculate_cumulative_spread db uid }
      else u) }

/-- The distinct outcomes of the POST branch of `make_pick` (each a distinct
`flash` + redirect in `app.py`). -/
inductive PickOutcome where
  | notFound
  | userEliminated
  | deadlinePassed
  | pickLocked
  | gameStarted
  | cfpEliminated
  | teamAlreadyUsed
  | success
  deriving DecidableEq, Repr

/-- The `game.game_time`-based lock test (`current_time > game_time`; a
missing `game_time` never locks). -/
def gameStartedBy (g : Game) (now : Int) : Bool :=
  match g.gameTime with
  | some t => now > t
  | none => false

/-- The POST branch of `app.py` `make_pick` (lines 473–597), checks in
source order: eliminated user, week lookup, deadline, existing-pick lock,
new team's game started, CFP elimination (playoff weeks), phase-scoped
used team; on success create or overwrite the single (user, week) pick row
and recompute the user's cumulative spread.  (The source performs no spread
-cap check on this path; the cap appears only in the GET eligible-team
list.) -/
def make_pick_post (db : DB) (now : Int) (uid weekNumber teamId : Nat) :
    PickOutcome × DB :=
  match findUser db uid with
  | none => (PickOutcome.notFound, db)
  | some user =>
    if user.isEliminated then (PickOutcome.userEliminated, db)
    else
      match findWeekByNumber db weekNumber with
      | none => (PickOutcome.notFound, db)
      | some week =>
        if now > week.deadline then (PickOutcome.deadlinePassed, db)
        else
          let existingPick := findPick db uid week.id
          let pickLocked :=
            match existingPick with
            | some p =>
              match teamGame db week.id p.teamId with
              | some g => gameStartedBy g now
              | none => false
            | none => false
          let cfpEliminatedNames :=
            if is_week_playoff week then get_cfp_eliminated_teams db else []
          if pickLocked then (PickOutcome.pickLocked, db)
          else
            let newTeamGameStarted :=
              match teamGame db week.id teamId with
              | some g => gameStartedBy g now
              | none => false
            if newTeamGameStarted then (PickOutcome.gameStarted, db)
            else if is_week_playoff week
                && (match findTeam db teamId with
                    | some t => cfpEliminatedNames.contains t.name
                    | none => false) then
              (PickOutcome.cfpEliminated, db)
            else
              let usedIds := usedTeamIds db uid week.id (is_week_playoff week)
              if usedIds.contains teamId then (PickOutcome.teamAlreadyUsed, db)
              else
                let db1 :=
                  match existingPick with
                  | some p =>
                    { db with picks := db.picks.map (fun q =>
                        if q.id == p.id then
                          { q with teamId := teamId, createdAt := now }
                        else q) }
                  | none =>
                    { db with picks := db.picks ++
                        [{ id := freshPickId db, userId := uid, weekId := week.id,
                           teamId := teamId, isCorrect := none, createdAt := now }] }
                (PickOutcome.success, recalcSpread db1 uid)

/-- Away-team half of one iteration of the eligible-team loop of `make_pick`
(GET branch, lines 653–673): team present, not used, not already added, not
CFP-eliminated (playoff weeks), away spread `-home_team_spread ≥ -16`, game
not started.  The accumulator carries the list built so far and the
`teams_added` id set. -/
def eligAwayCheck (db : DB) (now : Int) (playoff : Bool) (cfp : List String)
    (used : List Nat) (g : Game) (acc : List Team × List Nat) :
    List Team × List Nat :=
  match gameAwayTeam db g with
  | some t =>
    if !(used.contains t.id) && !(acc.2.contains t.id) then
      if playoff && cfp.contains t.name then acc
      else if -g.homeTeamSpread ≥ -16 then
        if !(gameStartedBy g now) then (acc.1 ++ [t], acc.2 ++ [t.id]) else acc
      else acc
    else acc
  | none => acc

/-- One iteration of the eligible-team loop of `make_pick` (GET branch,
lines 631–673).  Note the source's `continue` on a CFP-eliminated home team:
it skips the remainder of the iteration, so the away team of that game is
never examined. -/
def eligGameStep (db : DB) (now : Int) (playoff : Bool) (cfp : List String)
    (used : List Nat) (acc : List Team × List Nat) (g : Game) :
    List Team × List Nat :=
  match gameHomeTeam db g with
  | some t =>
    if !(used.contains t.id) && !(acc.2.contains t.id) then
      if playoff && cfp.contains t.name then acc
      else if g.homeTeamSpread ≥ -16 then
        if !(gameStartedBy g now) then
          eligAwayCheck db now playoff cfp used g (acc.1 ++ [t], acc.2 ++ [t.id])
        else eligAwayCheck db now playoff cfp used g acc
      else eligAwayCheck db now playoff cfp used g acc
    else eligAwayCheck db now playoff cfp used g acc
  | none => eligAwayCheck db now playoff cfp used g acc

/-- The eligible-team list built by the GET branch of `make_pick`
(lines 599–673). -/
def eligible_teams (db : DB) (now : Int) (uid : Nat) (week : Week) : List Team :=
  let games := weekGames db week.id
  let playoff := is_week_playoff week
  let cfp := if playoff then get_cfp_eliminated_teams db else []
  let used := usedTeamIds db uid week.id playoff
  (games.foldl (eligGameStep db now playoff cfp used) ([], [])).1

/-- Processing of a single pick inside `process_week_results`
(lines 1074–1098): locate the week's game of the picked team that has a
recorded winner; if found, set `is_correct` (home pick ↦ `home_team_won`,
otherwise its negation) and on an incorrect pick decrement the user's
lives, clamping at 0 and flagging elimination; finally recompute the
user's cumulative spread. -/
def processOnePick (d : DB) (wid : Nat) (p : Pick) : DB :=
  let d1 :=
    match teamGameWithResult d wid p.teamId with
    | some g =>
      let correct : Bool :=
        if g.homeTeamId == some p.teamId then g.homeTeamWon.getD false
        else !(g.homeTeamWon.getD false)
      let d' := { d with picks := d.picks.map (fun q =>
          if q.id == p.id then { q with isCorrect := some correct } else q) }
      if correct then d'
      else
        { d' with users := d'.users.map (fun u =>
            if u.id == p.userId then
              let lives := u.livesRemaining - 1
              if lives ≤ 0 then { u with livesRemaining := 0, isEliminated := true }
              else { u with livesRemaining := lives }
            else u) }
    | none => d
  recalcSpread d1 p.userId

/-- The main pass of `process_week_results`: fold `processOnePick` over the
week's picks (snapshot taken before the loop). -/
def processAllPicks (db : DB) (wid : Nat) : DB :=
  (weekPicks db wid).foldl (fun d p => processOnePick d wid p) db

/-- Snapshot of ids of active (non-eliminated) users holding exactly one
life, taken at the start of `process_week_results`. -/
def oneLifeSnapshot (db : DB) : List Nat :=
  ((db.users.filter (fun u => !u.isEliminated)).filter
    (fun u => u.livesRemaining == 1)).map (fun u => u.id)

/-- `active_user_ids = {user.id for user in active_users}` — a Python set,
modelled by deduplicated ids. -/
def activeUserIds (db : DB) : List Nat :=
  ((db.users.filter (fun u => !u.isEliminated)).map (fun u => u.id)).dedup

/-- The revival branch of `process_week_results` (lines 1102–1119): if the
one-life snapshot was non-empty and as large as the whole active-user set,
and every snapshot user is now at 0 lives, reset each of them to 1 life and
un-eliminate them. -/
def revivalPhase (d : DB) (snapshot : List Nat) (activeCount : Nat) : DB :=
  if !snapshot.isEmpty && snapshot.length == activeCount then
    let usersToCheck := d.users.filter (fun u => snapshot.contains u.id)
    if usersToCheck.all (fun u => u.livesRemaining == 0) then
      { d with users := d.users.map (fun u =>
          if snapshot.contains u.id then
            { u with livesRemaining := 1, isEliminated := false }
          else u) }
    else d
  else d

/-- `app.py` `process_week_results` (lines 1062–1119): snapshot, main pass,
revival rule. -/
def process_week_results (db : DB) (wid : Nat) : DB :=
  let snapshot := oneLifeSnapshot db
  let activeCount := (activeUserIds db).length
  revivalPhase (processAllPicks db wid) snapshot activeCount

/-- The POST branch of `app.py` `mark_results` up to its first commit
(lines 955–964): record each submitted game result and set the week's
`is_complete` flag — before `process_week_results` is invoked.
`results` maps a game id to the submitted winner (`some true` = home). -/
def mark_results_record (db : DB) (wid : Nat) (results : Nat → Option Bool) : DB :=
  { db with
    games := db.games.map (fun g =>
      if g.weekId == wid then
        match results g.id with
        | some b => { g with homeTeamWon := some b }
        | none => g
      else g),
    weeks := db.weeks.map (fun w =>
      if w.id == wid then { w with isComplete := true } else w) }

/-- The whole POST branch of `mark_results`: record results and
`is_complete`, then process the week. -/
def mark_results_post (db : DB) (wid : Nat) (results : Nat → Option Bool) : DB :=
  process_week_results (mark_results_record db wid results) wid

/-- The sequence of stored states the `mark_results` POST branch passes
through: the initial state, the state committed with `is_complete = true`
but no pick yet processed, then one state per processed pick, and finally
the state after the revival check. -/
def mark_results_states (db : DB) (wid : Nat) (results : Nat → Option Bool) :
    List DB :=
  let mid := mark_results_record db wid results
  let foldStates := (weekPicks mid wid).scanl (fun d p => processOnePick d wid p) mid
  (db :: foldStates) ++ [mark_results_post db wid results]

/-- State of the primary auto-pick loop: `best_team`, `best_spread`,
`best_favoritism` (initialised to `-999`). -/
structure PrimaryState where
  bestTeam : Option Team
  bestSpread : Option ℚ
  bestFav : ℚ
  deriving DecidableEq, Repr

/-- Away-team half of one iteration of the primary auto-pick loop
(lines 1198–1212): the away team's favoritism is `home_team_spread`; keep it
when it lies in `(0, 16]` and strictly beats the best so far. -/
def primaryAway (db : DB) (playoff : Bool) (cfp : List String)
    (used : List Nat) (st : PrimaryState) (g : Game) : PrimaryState :=
  match gameAwayTeam db g with
  | some t =>
    if !(used.contains t.id) then
      if playoff && cfp.contains t.name then st
      else
        let fav := g.homeTeamSpread
        if 0 < fav ∧ fav ≤ 16 ∧ st.bestFav < fav then
          { bestTeam := some t, bestSpread := some (-g.homeTeamSpread), bestFav := fav }
        else st
    else st
  | none => st

/-- One iteration of the primary auto-pick loop (lines 1181–1212).  As in
the eligible-team loop, the source's `continue` on a CFP-eliminated home
team skips the away-team half of the same iteration. -/
def primaryStep (db : DB) (playoff : Bool) (cfp : List String)
    (used : List Nat) (st : PrimaryState) (g : Game) : PrimaryState :=
  match gameHomeTeam db g with
  | some t =>
    if !(used.contains t.id) then
      if playoff && cfp.contains t.name then st
      else
        let fav := -g.homeTeamSpread
        let st1 :=
          if 0 < fav ∧ fav ≤ 16 ∧ st.bestFav < fav then
            { bestTeam := some t, bestSpread := some g.homeTeamSpread, bestFav := fav }
          else st
        primaryAway db playoff cfp used st1 g
    else primaryAway db playoff cfp used st g
  | none => primaryAway db playoff cfp used st g

/-- State of the fallback (smallest-underdog) loop: `smallest_underdog`,
`smallest_underdog_points` (initialised to `999`), and the shared
`best_spread` cell it also overwrites. -/
structure FallbackState where
  smallestUnderdog : Option Team
  smallestPoints : ℚ
  bestSpread : Option ℚ
  deriving DecidableEq, Repr

/-- Away-team half of one iteration of the fallback loop (lines 1232–1243). -/
def fallbackAway (db : DB) (playoff : Bool) (cfp : List String)
    (used : List Nat) (st : FallbackState) (g : Game) : FallbackState :=
  match gameAwayTeam db g with
  | some t =>
    if !(used.contains t.id) then
      if playoff && cfp.contains t.name then st
      else
        let awaySpread := -g.homeTeamSpread
        if 0 < awaySpread ∧ awaySpread < st.smallestPoints then
          { smallestUnderdog := some t, smallestPoints := awaySpread,
            bestSpread := some awaySpread }
        else st
    else st
  | none => st

/-- One iteration of the fallback loop (lines 1219–1243), with the same
`continue` behaviour on a CFP-eliminated home team. -/
def fallbackStep (db : DB) (playoff : Bool) (cfp : List String)
    (used : List Nat) (st : FallbackState) (g : Game) : FallbackState :=
  match gameHomeTeam db g with
  | some t =>
    if !(used.contains t.id) then
      if playoff && cfp.contains t.name then st
      else
        let st1 :=
          if 0 < g.homeTeamSpread ∧ g.homeTeamSpread < st.smallestPoints then
            { smallestUnderdog := some t, smallestPoints := g.homeTeamSpread,
              bestSpread := some g.homeTeamSpread }
          else st
        fallbackAway db playoff cfp used st1 g
    else fallbackAway db playoff cfp used st g
  | none => fallbackAway db playoff cfp used st g

/-- Team selection for one user inside `process_autopicks`
(lines 1176–1245): primary favorite heuristic over the not-yet-started
games, falling back to the smallest underdog; returns the chosen team and
the final `best_spread`, or `none` when both heuristics fail. -/
def autopickSelect (db : DB) (playoff : Bool) (cfp : List String)
    (games : List Game) (used : List Nat) : Option (Team × Option ℚ) :=
  let pst := games.foldl (primaryStep db playoff cfp used)
    { bestTeam := none, bestSpread := none, bestFav := -999 }
  match pst.bestTeam with
  | some t => some (t, pst.bestSpread)
  | none =>
    let fst' := games.foldl (fallbackStep db playoff cfp used)
      { smallestUnderdog := none, smallestPoints := 999, bestSpread := none }
    match fst'.smallestUnderdog with
    | some t => some (t, fst'.bestSpread)
    | none => none

/-- One successful auto-pick entry of the report (`autopicks_made`):
username, team name, final `best_spread`. -/
structure AutopickDetail where
  user : String
  team : String
  spread : Option ℚ
  deriving DecidableEq, Repr

/-- The dictionary `process_autopicks` returns. -/
structure AutopickReport where
  processed : Bool
  autopicks : Nat
  failed : Nat
  details : List AutopickDetail
  failures : List String
  deriving DecidableEq, Repr

/-- Processing of one user needing an auto-pick (lines 1157–1281): compute
the phase-scoped used teams, select a team, and either insert the pick row
(`created_at` stamped with the UTC resolution instant) and recompute the
user's spread, or append the user to the failure list. -/
def autopickUserStep (wid : Nat) (nowUtc : Int) (playoff : Bool)
    (cfp : List String) (games : List Game)
    (st : DB × List AutopickDetail × List String) (u : User) :
    DB × List AutopickDetail × List String :=
  let d := st.1
  let used := usedTeamIds d u.id wid playoff
  match autopickSelect d playoff cfp games used with
  | some (t, bestSpread) =>
    let d1 := { d with picks := d.picks ++
        [{ id := freshPickId d, userId := u.id, weekId := wid,
           teamId := t.id, isCorrect := none, createdAt := nowUtc }] }
    (recalcSpread d1 u.id,
     st.2.1 ++ [{ user := u.username, team := t.name, spread := bestSpread }],
     st.2.2)
  | none => (d, st.2.1, st.2.2 ++ [u.username])

/-- `users_needing_autopick`: active (non-eliminated) users without an
existing pick for the week (lines 1129–1137). -/
def usersNeedingAutopick (db : DB) (wid : Nat) : List User :=
  (db.users.filter (fun u => !u.isEliminated)).filter
    (fun u => !(((weekPicks db wid).map (fun p => p.userId)).contains u.id))

/-- The game pre-filter of `process_autopicks` (lines 1145–1150): games of
the week that have not yet started (`not game.game_time or game_time >
current_time`). -/
def autopickGames (db : DB) (wid : Nat) (now : Int) : List Game :=
  (weekGames db wid).filter (fun g =>
    match g.gameTime with
    | none => true
    | some t => t > now)

/-- CFP-eliminated name set used by `process_autopicks` (lines 1152–1155):
computed only in playoff weeks, otherwise empty. -/
def autopickCfp (db : DB) (week : Week) : List String :=
  if is_week_playoff week then get_cfp_eliminated_teams db else []

/-- `app.py` `process_autopicks` (lines 1121–1293): refuse before the
deadline; find active users without a pick for the week; filter the week's
games to those not yet started; run the selection loop per user; report
counts, details and failures. -/
def process_autopicks (db : DB) (wid : Nat) (now nowUtc : Int) :
    DB × AutopickReport :=
  match findWeekById db wid with
  | none => (db, { processed := false, autopicks := 0, failed := 0,
                   details := [], failures := [] })
  | some week =>
    if now > week.deadline then
      let needing := usersNeedingAutopick db wid
      if needing.isEmpty then
        (db, { processed := true, autopicks := 0, failed := 0,
               details := [], failures := [] })
      else
        let games := autopickGames db wid now
        let playoff := is_week_playoff week
        let cfp := autopickCfp db week
        let res := needing.foldl (autopickUserStep wid nowUtc playoff cfp games)
          (db, [], [])
        (res.1, { processed := true, autopicks := res.2.1.length,
                  failed := res.2.2.length, details := res.2.1,
                  failures := res.2.2 })
    else
      (db, { processed := false, autopicks := 0, failed := 0,
             details := [], failures := [] })

/-- The ORDER BY key of the standings query in `index` (lines 144–147):
lives remaining descending, then cumulative spread ascending. -/
def standingsLe (u v : User) : Bool :=
  v.livesRemaining < u.livesRemaining
  || (u.livesRemaining == v.livesRemaining && u.cumulativeSpread ≤ v.cumulativeSpread)

/-- Insert into a list sorted by `le` (model of SQL ORDER BY). -/
def orderedInsert (le : User → User → Bool) (a : User) : List User → List User
  | [] => [a]
  | b :: bs => if le a b then a :: b :: bs else b :: orderedInsert le a bs

/-- Sort by `le` (model of SQL ORDER BY: any sort realising the key
ordering). -/
def orderBySort (le : User → User → Bool) : List User → List User
  | [] => []
  | a :: as' => orderedInsert le a (orderBySort le as')

/-- The standings construction of `index` (lines 136–147): recompute every
user's cumulative spread, then list the non-eliminated users ordered by
lives remaining descending and cumulative spread ascending. -/
def index_standings (db : DB) : List User :=
  let users' := db.users.map (fun u =>
    { u with cumulativeSpread := calculate_cumulative_spread db u.id })
  orderBySort standingsLe (users'.filter (fun u => !u.isEliminated))

/-! ### Concrete scenarios used to settle individual claims -/

/-- A pool with one active user, one regular-season week still open
(deadline 100), and one game whose home team `Alpha` is favored by 17
points — strictly over the 16-point spread cap. -/
def dbOverCap : DB :=
  { users := [{ id := 1, username := "alice", livesRemaining := 2,
                isEliminated := false, cumulativeSpread := 0 }],
    teams := [⟨1, "Alpha"⟩, ⟨2, "Beta"⟩],
    weeks := [{ id := 1, weekNumber := 1, deadline := 100, isActive := true,
                isComplete := false, isPlayoffWeek := false }],
    games := [{ id := 1, weekId := 1, homeTeamId := some 1, awayTeamId := some 2,
                homeTeamName := none, awayTeamName := none,
                homeTeamSpread := -17, gameTime := some 50, homeTeamWon := none }],
    picks := [] }

/-- C1.  The claim is that a POST submission of a team favored by more than
16 points fails with a distinct `team not eligible` outcome and writes no
`Pick` row.  The source's POST branch of `make_pick` performs no spread-cap
check at all (the cap is applied only when building the GET eligible-team
list), so the submission succeeds and the row is created: in `dbOverCap`
the chosen team's effective spread is `-17 < -16`, a fresh active user
submits it before the deadline and before kickoff, the outcome is
`success`, and a (user 1, week 1) pick row for team 1 appears. -/
theorem submit_overcap_team_accepted :
    ((make_pick_post dbOverCap 10 1 1 1).2.picks.filter
        (fun p => p.userId == 1 && p.weekId == 1 && p.teamId == 1)).length = 1
    ∧ (make_pick_post dbOverCap 10 1 1 1).1 = PickOutcome.success
    ∧ dbOverCap.picks = []
    ∧ (teamGame dbOverCap 1 1).map (fun g => g.homeTeamSpread) = some (-17)
    ∧ ((-17 : ℚ) < -16) := by
  refine ⟨by decide, by decide, rfl, by decide, by norm_num⟩

/-- A playoff pool: `Alpha` lost the completed playoff game of week 16 (so
is CFP-eliminated), and the only not-yet-started game of playoff week 17
has `Alpha` at home against `Gamma`, with `Gamma` favored by 10 points —
an eligible favorite in `(0, 16]`.  User `alice` has no pick and no used
teams. -/
def dbAutoSkip : DB :=
  { users := [{ id := 1, username := "alice", livesRemaining := 2,
                isEliminated := false, cumulativeSpread := 0 }],
    teams := [⟨1, "Alpha"⟩, ⟨2, "Beta"⟩, ⟨3, "Gamma"⟩],
    weeks := [{ id := 1, weekNumber := 16, deadline := 0, isActive := false,
                isComplete := true, isPlayoffWeek := true },
              { id := 2, weekNumber := 17, deadline := 10, isActive := true,
                isComplete := false, isPlayoffWeek := true }],
    games := [{ id := 1, weekId := 1, homeTeamId := some 1, awayTeamId := some 2,
                homeTeamName := none, awayTeamName := none,
                homeTeamSpread := 0, gameTime := some 1, homeTeamWon := some false },
              { id := 2, weekId := 2, homeTeamId := some 1, awayTeamId := some 3,
                homeTeamName := none, awayTeamName := none,
                homeTeamSpread := 10, gameTime := some 100, homeTeamWon := none }],
    picks := [] }

/-- C4.  The claim is that the auto-pick engine selects, among the user's
remaining eligible teams with favoritism in `(0, 16]`, the one with the
largest favoritism.  In `dbAutoSkip` the away team `Gamma` (id 3) is such a
team — favoritism 10, never used by the user, not CFP-eliminated, its game
not yet started — so the claim requires `Gamma` to be auto-picked.  The
source instead executes `continue` upon seeing the CFP-eliminated home team
`Alpha`, skipping the away-team half of the same loop iteration in both
heuristics, and therefore records the user as an auto-pick failure and
creates no pick. -/
theorem autopick_skips_eligible_away_team :
    (process_autopicks dbAutoSkip 2 20 20).2.autopicks = 0
    ∧ (process_autopicks dbAutoSkip 2 20 20).2.failures = ["alice"]
    ∧ (process_autopicks dbAutoSkip 2 20 20).1.picks = []
    ∧ usedTeamIds dbAutoSkip 1 2 true = []
    ∧ get_cfp_eliminated_teams dbAutoSkip = ["Alpha"]
    ∧ (findTeam dbAutoSkip 3).map (fun t => t.name) = some "Gamma"
    ∧ ((0 : ℚ) < 10 ∧ (10 : ℚ) ≤ 16) := by
  refine ⟨by decide, by decide, by decide, by decide, by decide, by decide, by norm_num⟩

/-! ### Frame lemmas: which tables each operation leaves untouched -/

theorem recalcSpread_weeks (d : DB) (uid : Nat) :
    (recalcSpread d uid).weeks = d.weeks := rfl

theorem recalcSpread_games (d : DB) (uid : Nat) :
    (recalcSpread d uid).games = d.games := rfl

theorem recalcSpread_teams (d : DB) (uid : Nat) :
    (recalcSpread d uid).teams = d.teams := rfl

theorem recalcSpread_picks (d : DB) (uid : Nat) :
    (recalcSpread d uid).picks = d.picks := rfl

theorem processOnePick_weeks (d : DB) (wid : Nat) (p : Pick) :
    (processOnePick d wid p).weeks = d.weeks := by
  unfold processOnePick
  rw [recalcSpread_weeks]
  cases teamGameWithResult d wid p.teamId with
  | none => rfl
  | some g => dsimp only; split <;> (try split) <;> rfl

theorem processOnePick_games (d : DB) (wid : Nat) (p : Pick) :
    (processOnePick d wid p).games = d.games := by
  unfold processOnePick
  rw [recalcSpread_games]
  cases teamGameWithResult d wid p.teamId with
  | none => rfl
  | some g => dsimp only; split <;> (try split) <;> rfl

theorem processOnePick_teams (d : DB) (wid : Nat) (p : Pick) :
    (processOnePick d wid p).teams = d.teams := by
  unfold processOnePick
  rw [recalcSpread_teams]
  cases teamGameWithResult d wid p.teamId with
  | none => rfl
  | some g => dsimp only; split <;> (try split) <;> rfl

theorem foldPicks_weeks (wid : Nat) (l : List Pick) (d : DB) :
    (l.foldl (fun d p => processOnePick d wid p) d).weeks = d.weeks := by
  induction l generalizing d with
  | nil => rfl
  | cons p l ih => rw [List.foldl_cons, ih, processOnePick_weeks]

theorem revivalPhase_weeks (d : DB) (snapshot : List Nat) (activeCount : Nat) :
    (revivalPhase d snapshot activeCount).weeks = d.weeks := by
  unfold revivalPhase
  split
  · dsimp only
    split <;> rfl
  · rfl

theorem process_week_results_weeks (db : DB) (wid : Nat) :
    (process_week_results db wid).weeks = db.weeks := by
  unfold process_week_results processAllPicks
  rw [revivalPhase_weeks, foldPicks_weeks]

theorem record_weeks_head_aux (wid : Nat) (w : Week) (l : List Week)
    (hmem : w ∈ l) (hid : w.id = wid) :
    (((l.map (fun x => if x.id == wid then { x with isComplete := true } else x)).filter
        (fun x => x.id == wid)).head?).map (fun x => x.isComplete) = some true := by
  induction l with
  | nil => cases hmem
  | cons a l ih =>
    rcases List.mem_cons.mp hmem with h | h
    · subst h
      simp [hid]
    · by_cases ha : a.id = wid
      · simp [ha]
      · have hbeq : (a.id == wid) = false := beq_eq_false_iff_ne.mpr ha
        simp only [List.map_cons, List.filter_cons, hbeq, Bool.false_eq_true,
          if_false, ite_false]
        exact ih h

/-- After `mark_results_record`, looking up the processed week finds it with
`is_complete = true` (provided the week exists at all). -/
theorem findWeekById_after_record (db : DB) (wid : Nat)
    (results : Nat → Option Bool) (hw : ∃ w ∈ db.weeks, w.id = wid) :
    (findWeekById (mark_results_record db wid results) wid).map
      (fun w => w.isComplete) = some true := by
  obtain ⟨w, hmem, hid⟩ := hw
  unfold findWeekById mark_results_record
  exact record_weeks_head_aux wid w db.weeks hmem hid

/-- A minimal pool for the C8 counterexample: one user with one pending
pick, one game with a submitted home-team result. -/
def dbMark : DB :=
  { users := [{ id := 1, username := "alice", livesRemaining := 2,
                isEliminated := false, cumulativeSpread := 0 }],
    teams := [⟨1, "Alpha"⟩, ⟨2, "Beta"⟩],
    weeks := [{ id := 1, weekNumber := 1, deadline := 0, isActive := true,
                isComplete := false, isPlayoffWeek := false }],
    games := [{ id := 1, weekId := 1, homeTeamId := some 1, awayTeamId := some 2,
                homeTeamName := none, awayTeamName := none,
                homeTeamSpread := -3, gameTime := some 1, homeTeamWon := none }],
    picks := [{ id := 1, userId := 1, weekId := 1, teamId := 1,
                isCorrect := none, createdAt := 0 }] }

/-- The admin form submitting `home` as the winner of game 1. -/
def resultsMark : Nat → Option Bool := fun i => if i == 1 then some true else none

/-- C8 counterexample.  The claim states that at no point of the
result-processing sequence is `is_complete` true while a pick of the week
remains unprocessed.  In `dbMark` the state committed by `mark_results`
right before `process_week_results` is invoked — a state of the sequence —
already has `is_complete = true` while the week's one pick is still
unprocessed (`is_correct` still `None`; the final state then processes
it). -/
theorem is_complete_true_while_pick_unprocessed :
    (mark_results_record dbMark 1 resultsMark)
        ∈ mark_results_states dbMark 1 resultsMark
    ∧ (findWeekById (mark_results_record dbMark 1 resultsMark) 1).map
        (fun w => w.isComplete) = some true
    ∧ ((mark_results_record dbMark 1 resultsMark).picks.filter
        (fun p => p.isCorrect == none)).length = 1
    ∧ ((mark_results_post dbMark 1 resultsMark).picks.filter
        (fun p => p.isCorrect == none)).length = 0 := by
  refine ⟨by decide, by decide, by decide, by decide⟩

/-- C8 amended.  In `mark_results` the week's `is_complete` flag is set to
true (and committed) before any pick is processed: the state handed to
`process_week_results` already carries `is_complete = true`, and
`process_week_results` itself never modifies the week table at all. -/
theorem is_complete_set_before_processing (db : DB) (wid : Nat)
    (results : Nat → Option Bool) (hw : ∃ w ∈ db.weeks, w.id = wid) :
    (findWeekById (mark_results_record db wid results) wid).map
        (fun w => w.isComplete) = some true
    ∧ (mark_results_post db wid results).weeks
        = (mark_results_record db wid results).weeks := by
  exact ⟨findWeekById_after_record db wid results hw,
    process_week_results_weeks (mark_results_record db wid results) wid⟩

/-- Witness for `is_complete_set_before_processing` at the concrete pool
`dbMark`. -/
theorem is_complete_set_before_processing_witness :
    (∃ w ∈ dbMark.weeks, w.id = 1)
    ∧ ((findWeekById (mark_results_record dbMark 1 resultsMark) 1).map
        (fun w => w.isComplete) = some true
      ∧ (mark_results_post dbMark 1 resultsMark).weeks
          = (mark_results_record dbMark 1 resultsMark).weeks) :=
  ⟨⟨dbMark.weeks.head (by decide), by decide⟩,
   is_complete_set_before_processing dbMark 1 resultsMark
     ⟨dbMark.weeks.head (by decide), by decide⟩⟩

/-! ### Primary-key lookup lemmas -/

theorem head_filter_some_mem {α : Type} (p : α → Bool) (l : List α) (a : α)
    (h : (l.filter p).head? = some a) : a ∈ l ∧ p a = true := by
  obtain ⟨ys, hys⟩ := List.head?_eq_some_iff.mp h
  have hmem : a ∈ l.filter p := by rw [hys]; exact List.mem_cons_self a ys
  exact List.mem_filter.mp hmem

theorem head_filter_key_eq {α : Type} (key : α → Nat) (l : List α) (a : α)
    (hnodup : (l.map key).Nodup) (hmem : a ∈ l) :
    ((l.filter (fun x => key x == key a)).head?) = some a := by
  induction l with
  | nil => cases hmem
  | cons b l ih =>
    rcases List.mem_cons.mp hmem with h | h
    · subst h
      simp [List.filter_cons]
    · rw [List.map_cons] at hnodup
      have hnodup' := List.nodup_cons.mp hnodup
      have hb : key b ≠ key a := by
        intro he
        exact hnodup'.1 (he ▸ List.mem_map_of_mem key h)
      have hbeq : (key b == key a) = false := beq_eq_false_iff_ne.mpr hb
      simp only [List.filter_cons, hbeq, Bool.false_eq_true, if_false, ite_false]
      exact ih hnodup'.2 h

theorem findWeekById_some_mem (db : DB) (wid : Nat) (w : Week)
    (h : findWeekById db wid = some w) : w ∈ db.weeks ∧ w.id = wid := by
  have := head_filter_some_mem _ _ _ h
  exact ⟨this.1, by simpa using this.2⟩

theorem findWeekById_of_mem (db : DB) (w : Week)
    (hnodup : (db.weeks.map (fun x => x.id)).Nodup) (hmem : w ∈ db.weeks) :
    findWeekById db w.id = some w := by
  unfold findWeekById
  exact head_filter_key_eq (fun x => x.id) db.weeks w hnodup hmem

theorem findUser_some_mem (db : DB) (uid : Nat) (u : User)
    (h : findUser db uid = some u) : u ∈ db.users ∧ u.id = uid := by
  have := head_filter_some_mem _ _ _ h
  exact ⟨this.1, by simpa using this.2⟩

theorem findUser_of_mem (db : DB) (u : User)
    (hnodup : (db.users.map (fun x => x.id)).Nodup) (hmem : u ∈ db.users) :
    findUser db u.id = some u := by
  unfold findUser
  exact head_filter_key_eq (fun x => x.id) db.users u hnodup hmem

/-- A `match` on an optional week lookup is `true` iff the lookup succeeds
and the body does. -/
theorem weekJoin_eq_true_iff (db : DB) (x : Nat) (f : Week → Bool) :
    (match findWeekById db x with
     | some w => f w
     | none => false) = true
    ↔ ∃ w, findWeekById db x = some w ∧ f w = true := by
  cases h : findWeekById db x <;> simp [h]

/-- C5.  Phase isolation of the used-team computation: a team id is in the
used set computed for `(user, week, phase)` exactly when that user picked
it in a *different* week whose `is_playoff_week` flag matches the phase.
In particular a pick in the opposite phase never contributes, and the
user's own pick for the week under evaluation never contributes. -/
theorem used_teams_phase_isolation (db : DB) (uid wid : Nat) (playoff : Bool)
    (t : Nat) (hnodup : (db.weeks.map (fun w => w.id)).Nodup) :
    t ∈ usedTeamIds db uid wid playoff
    ↔ ∃ p ∈ db.picks, p.userId = uid ∧ p.teamId = t ∧ p.weekId ≠ wid
        ∧ ∃ w ∈ db.weeks, w.id = p.weekId ∧ w.isPlayoffWeek = playoff := by
  unfold usedTeamIds
  rw [List.mem_map]
  constructor
  · rintro ⟨p, hp, rfl⟩
    obtain ⟨hpmem, hcond⟩ := List.mem_filter.mp hp
    rw [Bool.and_eq_true, Bool.and_eq_true] at hcond
    obtain ⟨⟨huid, hmatch⟩, hwk⟩ := hcond
    obtain ⟨w, hfind, hflag⟩ := (weekJoin_eq_true_iff db p.weekId _).mp hmatch
    obtain ⟨hwmem, hwid⟩ := findWeekById_some_mem db p.weekId w hfind
    exact ⟨p, hpmem, by simpa using huid, rfl, by simpa using hwk,
      w, hwmem, hwid, by simpa using hflag⟩
  · rintro ⟨p, hpmem, huid, hteam, hwk, w, hwmem, hwid, hflag⟩
    refine ⟨p, List.mem_filter.mpr ⟨hpmem, ?_⟩, hteam⟩
    have hfind : findWeekById db p.weekId = some w := hwid ▸ findWeekById_of_mem db w hnodup hwmem
    rw [Bool.and_eq_true, Bool.and_eq_true]
    refine ⟨⟨by simpa using huid, ?_⟩, by simpa using hwk⟩
    exact (weekJoin_eq_true_iff db p.weekId _).mpr ⟨w, hfind, by simpa using hflag⟩

/-- Witness for `used_teams_phase_isolation`: in the concrete playoff pool
`dbAutoSkip` extended with a regular-season pick, the used-team set for the
playoff week ignores the regular-season pick. -/
def dbPhase : DB :=
  { users := [{ id := 1, username := "alice", livesRemaining := 2,
                isEliminated := false, cumulativeSpread := 0 }],
    teams := [⟨1, "Alpha"⟩, ⟨2, "Beta"⟩],
    weeks := [{ id := 1, weekNumber := 5, deadline := 0, isActive := false,
                isComplete := true, isPlayoffWeek := false },
              { id := 2, weekNumber := 16, deadline := 10, isActive := true,
                isComplete := false, isPlayoffWeek := true }],
    games := [],
    picks := [{ id := 1, userId := 1, weekId := 1, teamId := 1,
                isCorrect := some true, createdAt := 0 }] }

theorem used_teams_phase_isolation_witness :
    (dbPhase.weeks.map (fun w => w.id)).Nodup
    ∧ ¬ (1 ∈ usedTeamIds dbPhase 1 2 true) :=
  ⟨by decide, fun hmem => by
    obtain ⟨p, hpmem, _, _, _, w, hwmem, hwid, hflag⟩ :=
      (used_teams_phase_isolation dbPhase 1 2 true 1 (by decide)).mp hmem
    have hp : p = { id := 1, userId := 1, weekId := 1, teamId := 1,
                    isCorrect := some true, createdAt := 0 } := by
      simpa [dbPhase] using hpmem
    subst hp
    have : w = { id := 1, weekNumber := 5, deadline := 0, isActive := false,
                 isComplete := true, isPlayoffWeek := false } := by
      rcases (by simpa [dbPhase] using hwmem : _ ∨ _) with h | h
      · exact h
      · subst h; simp at hwid
    subst this
    simp at hflag⟩

/-! ### Auto-pick engine: invariance infrastructure -/

/-- What `process_autopicks` may change mid-run: picks gain rows for the
processed week only; games, weeks and teams are untouched; users keep
their identity, name and elimination status (only `cumulative_spread` is
rewritten). -/
def AutopickInv (db d : DB) (wid : Nat) : Prop :=
  d.games = db.games ∧ d.weeks = db.weeks ∧ d.teams = db.teams
  ∧ d.users.map (fun u => (u.id, u.username, u.livesRemaining, u.isEliminated))
      = db.users.map (fun u => (u.id, u.username, u.livesRemaining, u.isEliminated))
  ∧ ∃ P, d.picks = db.picks ++ P ∧ ∀ p ∈ P, p.weekId = wid

theorem autopickInv_refl (db : DB) (wid : Nat) : AutopickInv db db wid :=
  ⟨rfl, rfl, rfl, rfl, [], (List.append_nil _).symm, fun _ h => absurd h (List.not_mem_nil _)⟩

theorem findWeekById_congr (d db : DB) (h : d.weeks = db.weeks) :
    findWeekById d = findWeekById db := by
  funext x
  unfold findWeekById
  rw [h]

theorem findTeam_congr (d db : DB) (h : d.teams = db.teams) :
    findTeam d = findTeam db := by
  funext x
  unfold findTeam
  rw [h]

theorem get_cfp_congr (d db : DB) (hg : d.games = db.games)
    (hw : d.weeks = db.weeks) (ht : d.teams = db.teams) :
    get_cfp_eliminated_teams d = get_cfp_eliminated_teams db := by
  unfold get_cfp_eliminated_teams gameHomeTeam gameAwayTeam
  rw [hg, findWeekById_congr d db hw, findTeam_congr d db ht]

theorem weekGames_congr (d db : DB) (hg : d.games = db.games) :
    weekGames d = weekGames db := by
  funext x
  unfold weekGames
  rw [hg]

/-- The phase-scoped used-team query ignores picks of the week being
processed, so rows added for that week do not change it. -/
theorem usedTeamIds_inv (db d : DB) (wid : Nat) (hw : d.weeks = db.weeks)
    (hP : ∃ P, d.picks = db.picks ++ P ∧ ∀ p ∈ P, p.weekId = wid)
    (uid : Nat) (ph : Bool) :
    usedTeamIds d uid wid ph = usedTeamIds db uid wid ph := by
  obtain ⟨P, hp, hall⟩ := hP
  unfold usedTeamIds
  rw [findWeekById_congr d db hw, hp, List.filter_append]
  have hP0 : P.filter (fun p =>
      p.userId == uid
      && (match findWeekById db p.weekId with
          | some w => w.isPlayoffWeek == ph
          | none => false)
      && p.weekId != wid) = [] := by
    rw [List.filter_eq_nil_iff]
    intro p hmem
    simp [hall p hmem]
  rw [hP0, List.append_nil]

theorem primaryAway_congr (d db : DB) (ht : d.teams = db.teams)
    (playoff : Bool) (cfp : List String) (used : List Nat) :
    primaryAway d playoff cfp used = primaryAway db playoff cfp used := by
  funext st g
  unfold primaryAway gameAwayTeam
  rw [findTeam_congr d db ht]

theorem primaryStep_congr (d db : DB) (ht : d.teams = db.teams)
    (playoff : Bool) (cfp : List String) (used : List Nat) :
    primaryStep d playoff cfp used = primaryStep db playoff cfp used := by
  funext st g
  unfold primaryStep gameHomeTeam
  rw [findTeam_congr d db ht, primaryAway_congr d db ht]

theorem fallbackAway_congr (d db : DB) (ht : d.teams = db.teams)
    (playoff : Bool) (cfp : List String) (used : List Nat) :
    fallbackAway d playoff cfp used = fallbackAway db playoff cfp used := by
  funext st g
  unfold fallbackAway gameAwayTeam
  rw [findTeam_congr d db ht]

theorem fallbackStep_congr (d db : DB) (ht : d.teams = db.teams)
    (playoff : Bool) (cfp : List String) (used : List Nat) :
    fallbackStep d playoff cfp used = fallbackStep db playoff cfp used := by
  funext st g
  unfold fallbackStep gameHomeTeam
  rw [findTeam_congr d db ht, fallbackAway_congr d db ht]

theorem autopickSelect_congr (d db : DB) (ht : d.teams = db.teams)
    (playoff : Bool) (cfp : List String) (games : List Game) (used : List Nat) :
    autopickSelect d playoff cfp games used
      = autopickSelect db playoff cfp games used := by
  unfold autopickSelect
  rw [primaryStep_congr d db ht, fallbackStep_congr d db ht]

theorem recalcSpread_users_shape (d : DB) (uid : Nat) :
    (recalcSpread d uid).users.map (fun u => (u.id, u.username, u.livesRemaining, u.isEliminated))
      = d.users.map (fun u => (u.id, u.username, u.livesRemaining, u.isEliminated)) := by
  unfold recalcSpread
  dsimp only
  rw [List.map_map]
  apply List.map_congr_left
  intro u _
  by_cases h : u.id = uid <;> simp [h]

/-- Unfolding `autopickUserStep` when both heuristics fail: the user is
appended to the failure list and the store is untouched. -/
theorem autopickUserStep_of_none (wid : Nat) (nowUtc : Int) (playoff : Bool)
    (cfp : List String) (games : List Game) (d : DB)
    (made : List AutopickDetail) (failed : List String) (u : User)
    (h : autopickSelect d playoff cfp games (usedTeamIds d u.id wid playoff) = none) :
    autopickUserStep wid nowUtc playoff cfp games (d, made, failed) u
      = (d, made, failed ++ [u.username]) := by
  unfold autopickUserStep
  dsimp only
  rw [h]

/-- Unfolding `autopickUserStep` on a successful selection: the pick row is
inserted and the user's spread recomputed. -/
theorem autopickUserStep_of_some (wid : Nat) (nowUtc : Int) (playoff : Bool)
    (cfp : List String) (games : List Game) (d : DB)
    (made : List AutopickDetail) (failed : List String) (u : User)
    (t : Team) (sp : Option ℚ)
    (h : autopickSelect d playoff cfp games (usedTeamIds d u.id wid playoff)
      = some (t, sp)) :
    autopickUserStep wid nowUtc playoff cfp games (d, made, failed) u
      = (recalcSpread { d with picks := d.picks ++
            [{ id := freshPickId d, userId := u.id, weekId := wid,
               teamId := t.id, isCorrect := none, createdAt := nowUtc }] } u.id,
         made ++ [{ user := u.username, team := t.name, spread := sp }], failed) := by
  unfold autopickUserStep
  dsimp only
  rw [h]

theorem autopickUserStep_inv (db : DB) (wid : Nat) (nowUtc : Int)
    (playoff : Bool) (cfp : List String) (games : List Game) (d : DB)
    (made : List AutopickDetail) (failed : List String) (u : User)
    (h : AutopickInv db d wid) :
    AutopickInv db (autopickUserStep wid nowUtc playoff cfp games (d, made, failed) u).1 wid := by
  rcases hsel : autopickSelect d playoff cfp games (usedTeamIds d u.id wid playoff)
    with _ | ⟨t, sp⟩
  · rw [autopickUserStep_of_none _ _ _ _ _ _ _ _ _ hsel]
    exact h
  · rw [autopickUserStep_of_some _ _ _ _ _ _ _ _ _ _ _ hsel]
    obtain ⟨hg, hw, ht, hu, P, hp, hall⟩ := h
    refine ⟨?_, ?_, ?_, ?_,
      P ++ [{ id := freshPickId d, userId := u.id, weekId := wid,
              teamId := t.id, isCorrect := none, createdAt := nowUtc }], ?_, ?_⟩
    · rw [recalcSpread_games]; exact hg
    · rw [recalcSpread_weeks]; exact hw
    · rw [recalcSpread_teams]; exact ht
    · rw [recalcSpread_users_shape]; exact hu
    · rw [recalcSpread_picks]
      dsimp only
      rw [hp, List.append_assoc]
    · intro p hmem
      rcases List.mem_append.mp hmem with h1 | h1
      · exact hall p h1
      · rw [List.mem_singleton.mp h1]

theorem autopickUserStep_picks_mono (wid : Nat) (nowUtc : Int) (playoff : Bool)
    (cfp : List String) (games : List Game) (d : DB)
    (made : List AutopickDetail) (failed : List String) (u : User) (p : Pick)
    (h : p ∈ d.picks) :
    p ∈ (autopickUserStep wid nowUtc playoff cfp games (d, made, failed) u).1.picks := by
  rcases hsel : autopickSelect d playoff cfp games (usedTeamIds d u.id wid playoff)
    with _ | ⟨t, sp⟩
  · rw [autopickUserStep_of_none _ _ _ _ _ _ _ _ _ hsel]
    exact h
  · rw [autopickUserStep_of_some _ _ _ _ _ _ _ _ _ _ _ hsel, recalcSpread_picks]
    exact List.mem_append_left _ h

theorem apFold_inv (db : DB) (wid : Nat) (nowUtc : Int) (playoff : Bool)
    (cfp : List String) (games : List Game) (L : List User) :
    ∀ st, AutopickInv db st.1 wid →
      AutopickInv db
        (L.foldl (autopickUserStep wid nowUtc playoff cfp games) st).1 wid := by
  induction L with
  | nil => intro st h; exact h
  | cons u L ih =>
    intro st h
    rw [List.foldl_cons]
    obtain ⟨d, made, failed⟩ := st
    exact ih _ (autopickUserStep_inv db wid nowUtc playoff cfp games d made failed u h)

theorem apFold_picks_mono (wid : Nat) (nowUtc : Int) (playoff : Bool)
    (cfp : List String) (games : List Game) (L : List User) :
    ∀ st (p : Pick), p ∈ st.1.picks →
      p ∈ (L.foldl (autopickUserStep wid nowUtc playoff cfp games) st).1.picks := by
  induction L with
  | nil => intro st p h; exact h
  | cons u L ih =>
    intro st p h
    rw [List.foldl_cons]
    obtain ⟨d, made, failed⟩ := st
    exact ih _ p (autopickUserStep_picks_mono wid nowUtc playoff cfp games d made failed u p h)

/-- When every user in the list has no selectable team, the fold changes
nothing except appending every username to the failure list. -/
theorem apFold_all_none (wid : Nat) (nowUtc : Int) (playoff : Bool)
    (cfp : List String) (games : List Game) (L : List User) :
    ∀ (d : DB) (made : List AutopickDetail) (failed : List String),
      (∀ u ∈ L, autopickSelect d playoff cfp games
          (usedTeamIds d u.id wid playoff) = none) →
      L.foldl (autopickUserStep wid nowUtc playoff cfp games) (d, made, failed)
        = (d, made, failed ++ L.map (fun u => u.username)) := by
  induction L with
  | nil => intro d made failed _; simp
  | cons u L ih =>
    intro d made failed h
    rw [List.foldl_cons,
      autopickUserStep_of_none _ _ _ _ _ _ _ _ _ (h u (List.mem_cons_self u L)),
      ih d made (failed ++ [u.username]) (fun v hv => h v (List.mem_cons_of_mem u hv))]
    simp

/-- Every user processed by the fold either ends up with a pick row for the
week, or its selection (computed against the reference store `db`) was
`none`. -/
theorem apFold_mem_none (db : DB) (wid : Nat) (nowUtc : Int) (playoff : Bool)
    (cfp : List String) (games : List Game) (L : List User) :
    ∀ st, AutopickInv db st.1 wid → ∀ u ∈ L,
      (∃ p ∈ (L.foldl (autopickUserStep wid nowUtc playoff cfp games) st).1.picks,
        p.userId = u.id ∧ p.weekId = wid)
      ∨ autopickSelect db playoff cfp games (usedTeamIds db u.id wid playoff) = none := by
  induction L with
  | nil => intro st _ u hu; cases hu
  | cons v L ih =>
    intro st hinv u hu
    obtain ⟨d, made, failed⟩ := st
    rcases List.mem_cons.mp hu with rfl | hu'
    · rcases hsel : autopickSelect d playoff cfp games (usedTeamIds d u.id wid playoff)
        with _ | ⟨t, sp⟩
      · right
        rw [usedTeamIds_inv db d wid hinv.2.1 hinv.2.2.2.2 u.id playoff,
          autopickSelect_congr d db hinv.2.2.1 playoff cfp games _] at hsel
        exact hsel
      · left
        rw [List.foldl_cons, autopickUserStep_of_some _ _ _ _ _ _ _ _ _ _ _ hsel]
        refine ⟨{ id := freshPickId d, userId := u.id, weekId := wid,
                  teamId := t.id, isCorrect := none, createdAt := nowUtc },
          apFold_picks_mono wid nowUtc playoff cfp games L _ _ ?_, rfl, rfl⟩
        rw [recalcSpread_picks]
        exact List.mem_append_right _ (List.mem_singleton_self _)
    · rw [List.foldl_cons]
      exact ih _ (autopickUserStep_inv db wid nowUtc playoff cfp games d made failed v hinv) u hu'

/-! ### `process_autopicks`: equations and idempotence -/

theorem process_autopicks_eq_noweek (db : DB) (wid : Nat) (now nowUtc : Int)
    (hW : findWeekById db wid = none) :
    process_autopicks db wid now nowUtc
      = (db, { processed := false, autopicks := 0, failed := 0,
               details := [], failures := [] }) := by
  unfold process_autopicks
  rw [hW]

theorem process_autopicks_eq_early (db : DB) (wid : Nat) (now nowUtc : Int)
    (week : Week) (hW : findWeekById db wid = some week)
    (hD : ¬ now > week.deadline) :
    process_autopicks db wid now nowUtc
      = (db, { processed := false, autopicks := 0, failed := 0,
               details := [], failures := [] }) := by
  unfold process_autopicks
  rw [hW]
  exact if_neg hD

theorem process_autopicks_eq_allpicked (db : DB) (wid : Nat) (now nowUtc : Int)
    (week : Week) (hW : findWeekById db wid = some week)
    (hD : now > week.deadline) (hN : (usersNeedingAutopick db wid).isEmpty) :
    process_autopicks db wid now nowUtc
      = (db, { processed := true, autopicks := 0, failed := 0,
               details := [], failures := [] }) := by
  unfold process_autopicks
  rw [hW]
  dsimp only
  rw [if_pos hD, if_pos hN]

theorem process_autopicks_eq_main (db : DB) (wid : Nat) (now nowUtc : Int)
    (week : Week) (hW : findWeekById db wid = some week)
    (hD : now > week.deadline)
    (hN : ¬ (usersNeedingAutopick db wid).isEmpty) :
    process_autopicks db wid now nowUtc
      = (((usersNeedingAutopick db wid).foldl
            (autopickUserStep wid nowUtc (is_week_playoff week)
              (autopickCfp db week) (autopickGames db wid now)) (db, [], [])).1,
         { processed := true,
           autopicks := ((usersNeedingAutopick db wid).foldl
              (autopickUserStep wid nowUtc (is_week_playoff week)
                (autopickCfp db week) (autopickGames db wid now)) (db, [], [])).2.1.length,
           failed := ((usersNeedingAutopick db wid).foldl
              (autopickUserStep wid nowUtc (is_week_playoff week)
                (autopickCfp db week) (autopickGames db wid now)) (db, [], [])).2.2.length,
           details := ((usersNeedingAutopick db wid).foldl
              (autopickUserStep wid nowUtc (is_week_playoff week)
                (autopickCfp db week) (autopickGames db wid now)) (db, [], [])).2.1,
           failures := ((usersNeedingAutopick db wid).foldl
              (autopickUserStep wid nowUtc (is_week_playoff week)
                (autopickCfp db week) (autopickGames db wid now)) (db, [], [])).2.2 }) := by
  unfold process_autopicks
  rw [hW]
  dsimp only
  rw [if_pos hD, if_neg hN]

/-- The store returned by `process_autopicks` relates to its input by
`AutopickInv`. -/
theorem process_autopicks_inv (db : DB) (wid : Nat) (now nowUtc : Int) :
    AutopickInv db (process_autopicks db wid now nowUtc).1 wid := by
  rcases hW : findWeekById db wid with _ | week
  · rw [process_autopicks_eq_noweek db wid now nowUtc hW]
    exact autopickInv_refl db wid
  · by_cases hD : now > week.deadline
    · by_cases hN : (usersNeedingAutopick db wid).isEmpty
      · rw [process_autopicks_eq_allpicked db wid now nowUtc week hW hD hN]
        exact autopickInv_refl db wid
      · rw [process_autopicks_eq_main db wid now nowUtc week hW hD hN]
        exact apFold_inv db wid nowUtc _ _ _ _ _ (autopickInv_refl db wid)
    · rw [process_autopicks_eq_early db wid now nowUtc week hW hD]
      exact autopickInv_refl db wid

/-- C7.  Auto-pick idempotence: for a fixed store, week and evaluation
time, a second `process_autopicks` immediately after a first creates zero
additional picks — every user who got a pick (manual or auto) in the first
run is excluded from consideration, and every user who failed fails again
identically. -/
theorem autopick_idempotent (db : DB) (wid : Nat) (now nowUtc : Int) :
    (process_autopicks (process_autopicks db wid now nowUtc).1 wid now nowUtc).2.autopicks = 0
    ∧ (process_autopicks (process_autopicks db wid now nowUtc).1 wid now nowUtc).1.picks
        = (process_autopicks db wid now nowUtc).1.picks := by
  rcases hW : findWeekById db wid with _ | week
  · rw [process_autopicks_eq_noweek db wid now nowUtc hW]
    dsimp only
    rw [process_autopicks_eq_noweek db wid now nowUtc hW]
    exact ⟨rfl, rfl⟩
  · by_cases hD : now > week.deadline
    · by_cases hN : (usersNeedingAutopick db wid).isEmpty
      · rw [process_autopicks_eq_allpicked db wid now nowUtc week hW hD hN]
        dsimp only
        rw [process_autopicks_eq_allpicked db wid now nowUtc week hW hD hN]
        exact ⟨rfl, rfl⟩
      · rw [process_autopicks_eq_main db wid now nowUtc week hW hD hN]
        dsimp only
        set F := (usersNeedingAutopick db wid).foldl
          (autopickUserStep wid nowUtc (is_week_playoff week)
            (autopickCfp db week) (autopickGames db wid now)) (db, [], []) with hF
        have hinv : AutopickInv db F.1 wid := by
          rw [hF]
          exact apFold_inv db wid nowUtc _ _ _ _ _ (autopickInv_refl db wid)
        obtain ⟨hg, hw, ht, hshape, P, hpk, hall⟩ := hinv
        have hW1 : findWeekById F.1 wid = some week := by
          rw [findWeekById_congr F.1 db hw]
          exact hW
        by_cases hN2 : (usersNeedingAutopick F.1 wid).isEmpty
        · rw [process_autopicks_eq_allpicked F.1 wid now nowUtc week hW1 hD hN2]
          exact ⟨rfl, rfl⟩
        · have hgames1 : autopickGames F.1 wid now = autopickGames db wid now := by
            unfold autopickGames
            rw [weekGames_congr F.1 db hg]
          have hcfp1 : autopickCfp F.1 week = autopickCfp db week := by
            unfold autopickCfp
            rw [get_cfp_congr F.1 db hg hw ht]
          have hsel_none : ∀ u ∈ usersNeedingAutopick F.1 wid,
              autopickSelect F.1 (is_week_playoff week) (autopickCfp F.1 week)
                (autopickGames F.1 wid now)
                (usedTeamIds F.1 u.id wid (is_week_playoff week)) = none := by
            intro u hu
            obtain ⟨hu1, hcont⟩ := List.mem_filter.mp hu
            obtain ⟨humem, helim⟩ := List.mem_filter.mp hu1
            have helim' : u.isEliminated = false := by simpa using helim
            have hcont' : ¬ u.id ∈ (weekPicks F.1 wid).map (fun p => p.userId) := by
              simpa using hcont
            have hnopick : ∀ p ∈ F.1.picks, p.weekId = wid → p.userId ≠ u.id := by
              intro p hp hpw hpu
              exact hcont' (List.mem_map.mpr ⟨p,
                List.mem_filter.mpr ⟨hp, by simpa using hpw⟩, hpu⟩)
            have hproj : (u.id, u.username, u.livesRemaining, u.isEliminated)
                ∈ db.users.map (fun v => (v.id, v.username, v.livesRemaining, v.isEliminated)) := by
              rw [← hshape]
              exact List.mem_map_of_mem _ humem
            obtain ⟨u1, hu1mem, hu1eq⟩ := List.mem_map.mp hproj
            rw [Prod.ext_iff, Prod.ext_iff, Prod.ext_iff] at hu1eq
            obtain ⟨hid, hname, hlives, helimeq⟩ := hu1eq
            dsimp only at hid hname hlives helimeq
            have hu1need : u1 ∈ usersNeedingAutopick db wid := by
              refine List.mem_filter.mpr ⟨List.mem_filter.mpr ⟨hu1mem, ?_⟩, ?_⟩
              · simp [helimeq, helim']

              · have : ¬ u1.id ∈ (weekPicks db wid).map (fun p => p.userId) := by
                  intro hmem
                  obtain ⟨p, hpmem, hpuid⟩ := List.mem_map.mp hmem
                  obtain ⟨hpdb, hpw⟩ := List.mem_filter.mp hpmem
                  have hp1 : p ∈ F.1.picks := by
                    rw [hpk]
                    exact List.mem_append_left P hpdb
                  exact hnopick p hp1 (by simpa using hpw) (hpuid.trans hid)
                simpa using this
            have hdisj := apFold_mem_none db wid nowUtc (is_week_playoff week)
              (autopickCfp db week) (autopickGames db wid now)
              (usersNeedingAutopick db wid) (db, [], [])
              (autopickInv_refl db wid) u1 hu1need
            rcases hdisj with ⟨p, hpmem, hpu, hpw⟩ | hnone
            · exact absurd (hpu.trans hid) (hnopick p (by rw [← hF] at hpmem; exact hpmem) hpw)
            · rw [hcfp1, hgames1,
                usedTeamIds_inv db F.1 wid hw ⟨P, hpk, hall⟩ u.id (is_week_playoff week),
                autopickSelect_congr F.1 db ht (is_week_playoff week)
                  (autopickCfp db week) (autopickGames db wid now) _,
                ← hid]
              exact hnone
          rw [process_autopicks_eq_main F.1 wid now nowUtc week hW1 hD hN2]
          rw [apFold_all_none wid nowUtc (is_week_playoff week) (autopickCfp F.1 week)
            (autopickGames F.1 wid now) (usersNeedingAutopick F.1 wid) F.1 [] [] hsel_none]
          exact ⟨rfl, rfl⟩
    · rw [process_autopicks_eq_early db wid now nowUtc week hW hD]
      dsimp only
      rw [process_autopicks_eq_early db wid now nowUtc week hW hD]
      exact ⟨rfl, rfl⟩

/-! ### Pick'em games and the auto-pick heuristics (C10) -/

theorem foldl_fix {α β : Type} (f : β → α → β) (l : List α)
    (h : ∀ a ∈ l, ∀ b, f b a = b) : ∀ b, l.foldl f b = b := by
  induction l with
  | nil => intro b; rfl
  | cons a l ih =>
    intro b
    rw [List.foldl_cons, h a (List.mem_cons_self a l)]
    exact ih (fun x hx b' => h x (List.mem_cons_of_mem a hx) b') b

theorem primaryAway_fix (d : DB) (playoff : Bool) (cfp : List String)
    (used : List Nat) (g : Game)
    (hAway : ∀ t, gameAwayTeam d g = some t → ¬ t.id ∈ used →
      ¬ (playoff = true ∧ t.name ∈ cfp) → g.homeTeamSpread = 0)
    (st : PrimaryState) :
    primaryAway d playoff cfp used st g = st := by
  unfold primaryAway
  rcases hA : gameAwayTeam d g with _ | ta
  · rfl
  · by_cases hused : ta.id ∈ used
    · simp [hused]
    · by_cases hcfp : playoff = true ∧ ta.name ∈ cfp
      · simp [hused, hcfp]
      · have hsp := hAway ta hA hused hcfp
        simp [hused, hcfp, hsp]

theorem primaryStep_fix (d : DB) (playoff : Bool) (cfp : List String)
    (used : List Nat) (g : Game)
    (hHome : ∀ t, gameHomeTeam d g = some t → ¬ t.id ∈ used →
      ¬ (playoff = true ∧ t.name ∈ cfp) → g.homeTeamSpread = 0)
    (hAway : ∀ t, gameAwayTeam d g = some t → ¬ t.id ∈ used →
      ¬ (playoff = true ∧ t.name ∈ cfp) → g.homeTeamSpread = 0)
    (st : PrimaryState) :
    primaryStep d playoff cfp used st g = st := by
  have haway := primaryAway_fix d playoff cfp used g hAway
  unfold primaryStep
  rcases hH : gameHomeTeam d g with _ | th
  · exact haway st
  · by_cases hused : th.id ∈ used
    · simpa [hused] using haway st
    · by_cases hcfp : playoff = true ∧ th.name ∈ cfp
      · simp [hused, hcfp]
      · have hsp := hHome th hH hused hcfp
        simpa [hused, hcfp, hsp] using haway st

theorem fallbackAway_fix (d : DB) (playoff : Bool) (cfp : List String)
    (used : List Nat) (g : Game)
    (hAway : ∀ t, gameAwayTeam d g = some t → ¬ t.id ∈ used →
      ¬ (playoff = true ∧ t.name ∈ cfp) → g.homeTeamSpread = 0)
    (st : FallbackState) :
    fallbackAway d playoff cfp used st g = st := by
  unfold fallbackAway
  rcases hA : gameAwayTeam d g with _ | ta
  · rfl
  · by_cases hused : ta.id ∈ used
    · simp [hused]
    · by_cases hcfp : playoff = true ∧ ta.name ∈ cfp
      · simp [hused, hcfp]
      · have hsp := hAway ta hA hused hcfp
        simp [hused, hcfp, hsp]

theorem fallbackStep_fix (d : DB) (playoff : Bool) (cfp : List String)
    (used : List Nat) (g : Game)
    (hHome : ∀ t, gameHomeTeam d g = some t → ¬ t.id ∈ used →
      ¬ (playoff = true ∧ t.name ∈ cfp) → g.homeTeamSpread = 0)
    (hAway : ∀ t, gameAwayTeam d g = some t → ¬ t.id ∈ used →
      ¬ (playoff = true ∧ t.name ∈ cfp) → g.homeTeamSpread = 0)
    (st : FallbackState) :
    fallbackStep d playoff cfp used st g = st := by
  have haway := fallbackAway_fix d playoff cfp used g hAway
  unfold fallbackStep
  rcases hH : gameHomeTeam d g with _ | th
  · exact haway st
  · by_cases hused : th.id ∈ used
    · simpa [hused] using haway st
    · by_cases hcfp : playoff = true ∧ th.name ∈ cfp
      · simp [hused, hcfp]
      · have hsp := hHome th hH hused hcfp
        simpa [hused, hcfp, hsp] using haway st

/-- When every candidate team over the game list sits at an effective
spread of exactly 0, both heuristics come up empty. -/
theorem autopickSelect_none_of_pickem (d : DB) (playoff : Bool)
    (cfp : List String) (games : List Game) (used : List Nat)
    (hz : ∀ g ∈ games,
      (∀ t, gameHomeTeam d g = some t → ¬ t.id ∈ used →
        ¬ (playoff = true ∧ t.name ∈ cfp) → g.homeTeamSpread = 0)
      ∧ (∀ t, gameAwayTeam d g = some t → ¬ t.id ∈ used →
        ¬ (playoff = true ∧ t.name ∈ cfp) → g.homeTeamSpread = 0)) :
    autopickSelect d playoff cfp games used = none := by
  unfold autopickSelect
  rw [foldl_fix (primaryStep d playoff cfp used) games
    (fun g hg st => primaryStep_fix d playoff cfp used g (hz g hg).1 (hz g hg).2 st)]
  dsimp only
  rw [foldl_fix (fallbackStep d playoff cfp used) games
    (fun g hg st => fallbackStep_fix d playoff cfp used g (hz g hg).1 (hz g hg).2 st)]

theorem autopickUserStep_failures_mono (wid : Nat) (nowUtc : Int)
    (playoff : Bool) (cfp : List String) (games : List Game) (d : DB)
    (made : List AutopickDetail) (failed : List String) (u : User) (x : String)
    (h : x ∈ failed) :
    x ∈ (autopickUserStep wid nowUtc playoff cfp games (d, made, failed) u).2.2 := by
  rcases hsel : autopickSelect d playoff cfp games (usedTeamIds d u.id wid playoff)
    with _ | ⟨t, sp⟩
  · rw [autopickUserStep_of_none _ _ _ _ _ _ _ _ _ hsel]
    exact List.mem_append_left _ h
  · rw [autopickUserStep_of_some _ _ _ _ _ _ _ _ _ _ _ hsel]
    exact h

theorem apFold_failures_mono (wid : Nat) (nowUtc : Int) (playoff : Bool)
    (cfp : List String) (games : List Game) (L : List User) :
    ∀ st (x : String), x ∈ st.2.2 →
      x ∈ (L.foldl (autopickUserStep wid nowUtc playoff cfp games) st).2.2 := by
  induction L with
  | nil => intro st x h; exact h
  | cons u L ih =>
    intro st x h
    rw [List.foldl_cons]
    obtain ⟨d, made, failed⟩ := st
    exact ih _ x (autopickUserStep_failures_mono wid nowUtc playoff cfp games d made failed u x h)

/-- A processed user whose selection (against the reference store) is
`none` ends up in the failure list. -/
theorem apFold_failure_mem (db : DB) (wid : Nat) (nowUtc : Int)
    (playoff : Bool) (cfp : List String) (games : List Game) (L : List User) :
    ∀ st, AutopickInv db st.1 wid → ∀ u ∈ L,
      autopickSelect db playoff cfp games (usedTeamIds db u.id wid playoff) = none →
      u.username ∈ (L.foldl (autopickUserStep wid nowUtc playoff cfp games) st).2.2 := by
  induction L with
  | nil => intro st _ u hu; cases hu
  | cons v L ih =>
    intro st hinv u hu hnone
    obtain ⟨d, made, failed⟩ := st
    rcases List.mem_cons.mp hu with rfl | hu'
    · have hselnone : autopickSelect d playoff cfp games
          (usedTeamIds d u.id wid playoff) = none := by
        rw [usedTeamIds_inv db d wid hinv.2.1 hinv.2.2.2.2 u.id playoff,
          autopickSelect_congr d db hinv.2.2.1 playoff cfp games _]
        exact hnone
      rw [List.foldl_cons, autopickUserStep_of_none _ _ _ _ _ _ _ _ _ hselnone]
      exact apFold_failures_mono wid nowUtc playoff cfp games L _ u.username
        (List.mem_append_right _ (List.mem_singleton_self _))
    · rw [List.foldl_cons]
      exact ih _ (autopickUserStep_inv db wid nowUtc playoff cfp games d made failed v hinv) u hu' hnone

/-- Every pick row present after the fold was either present before, or was
created for a processed user whose selection succeeded. -/
theorem apFold_picks_added (db : DB) (wid : Nat) (nowUtc : Int)
    (playoff : Bool) (cfp : List String) (games : List Game) (L : List User) :
    ∀ st, AutopickInv db st.1 wid → ∀ p,
      p ∈ (L.foldl (autopickUserStep wid nowUtc playoff cfp games) st).1.picks →
      p ∈ st.1.picks ∨ ∃ v ∈ L, p.userId = v.id ∧
        autopickSelect db playoff cfp games (usedTeamIds db v.id wid playoff) ≠ none := by
  induction L with
  | nil => intro st _ p hp; exact Or.inl hp
  | cons v L ih =>
    intro st hinv p hp
    obtain ⟨d, made, failed⟩ := st
    rw [List.foldl_cons] at hp
    rcases ih _ (autopickUserStep_inv db wid nowUtc playoff cfp games d made failed v hinv) p hp
      with hstep | ⟨v', hv', hpu, hsel'⟩
    · rcases hsel : autopickSelect d playoff cfp games (usedTeamIds d v.id wid playoff)
        with _ | ⟨t, sp⟩
      · rw [autopickUserStep_of_none _ _ _ _ _ _ _ _ _ hsel] at hstep
        exact Or.inl hstep
      · rw [autopickUserStep_of_some _ _ _ _ _ _ _ _ _ _ _ hsel, recalcSpread_picks] at hstep
        rcases List.mem_append.mp hstep with h1 | h1
        · exact Or.inl h1
        · refine Or.inr ⟨v, List.mem_cons_self v L, ?_, ?_⟩
          · rw [List.mem_singleton.mp h1]
          · rw [usedTeamIds_inv db d wid hinv.2.1 hinv.2.2.2.2 v.id playoff,
              autopickSelect_congr d db hinv.2.2.1 playoff cfp games _] at hsel
            rw [hsel]
            exact fun hc => Option.noConfusion hc
    · exact Or.inr ⟨v', List.mem_cons_of_mem v hv', hpu, hsel'⟩

/-- C10.  The auto-pick engine never selects a team from a pick'em game:
when every remaining candidate team of the not-yet-started games (present,
not used by the user, not CFP-eliminated) carries an effective spread of
exactly 0, both the favorite heuristic (which demands favoritism strictly
above 0) and the underdog fallback (which demands a spread strictly above
0) fail, the user is recorded in the failure report, no pick row is
created for that user and week, and no user's lives change. -/
theorem autopick_pickem_failure (db : DB) (wid : Nat) (now nowUtc : Int)
    (week : Week) (u : User)
    (hW : findWeekById db wid = some week) (hD : now > week.deadline)
    (hu : u ∈ usersNeedingAutopick db wid)
    (hz : ∀ g ∈ autopickGames db wid now,
      (∀ t, gameHomeTeam db g = some t →
        ¬ t.id ∈ usedTeamIds db u.id wid (is_week_playoff week) →
        ¬ (is_week_playoff week = true ∧ t.name ∈ autopickCfp db week) →
        g.homeTeamSpread = 0)
      ∧ (∀ t, gameAwayTeam db g = some t →
        ¬ t.id ∈ usedTeamIds db u.id wid (is_week_playoff week) →
        ¬ (is_week_playoff week = true ∧ t.name ∈ autopickCfp db week) →
        g.homeTeamSpread = 0)) :
    u.username ∈ (process_autopicks db wid now nowUtc).2.failures
    ∧ (¬ ∃ p ∈ (process_autopicks db wid now nowUtc).1.picks,
        p.userId = u.id ∧ p.weekId = wid)
    ∧ (process_autopicks db wid now nowUtc).1.users.map
        (fun v => (v.id, v.livesRemaining))
      = db.users.map (fun v => (v.id, v.livesRemaining)) := by
  have hN : ¬ (usersNeedingAutopick db wid).isEmpty := by
    intro hemp
    rw [List.isEmpty_iff] at hemp
    rw [hemp] at hu
    cases hu
  have hnone : autopickSelect db (is_week_playoff week) (autopickCfp db week)
      (autopickGames db wid now)
      (usedTeamIds db u.id wid (is_week_playoff week)) = none :=
    autopickSelect_none_of_pickem db (is_week_playoff week) (autopickCfp db week)
      (autopickGames db wid now) (usedTeamIds db u.id wid (is_week_playoff week)) hz
  have hnopick0 : ¬ u.id ∈ (weekPicks db wid).map (fun p => p.userId) := by
    obtain ⟨_, hcont⟩ := List.mem_filter.mp hu
    simpa using hcont
  have hlives := process_autopicks_inv db wid now nowUtc
  rw [process_autopicks_eq_main db wid now nowUtc week hW hD hN] at hlives ⊢
  dsimp only at hlives ⊢
  refine ⟨?_, ?_, ?_⟩
  · exact apFold_failure_mem db wid nowUtc (is_week_playoff week)
      (autopickCfp db week) (autopickGames db wid now)
      (usersNeedingAutopick db wid) (db, [], [])
      (autopickInv_refl db wid) u hu hnone
  · rintro ⟨p, hpmem, hpu, hpw⟩
    rcases apFold_picks_added db wid nowUtc (is_week_playoff week)
        (autopickCfp db week) (autopickGames db wid now)
        (usersNeedingAutopick db wid) (db, [], [])
        (autopickInv_refl db wid) p hpmem with hold | ⟨v, _, hpv, hselv⟩
    · exact hnopick0 (List.mem_map.mpr ⟨p,
        List.mem_filter.mpr ⟨hold, by simpa using hpw⟩, hpu⟩)
    · have : v.id = u.id := hpv ▸ hpu
      rw [this] at hselv
      exact hselv hnone
  · obtain ⟨_, _, _, hshape, _⟩ := hlives
    have := congrArg (List.map (fun x : Nat × String × Int × Bool => (x.1, x.2.2.1))) hshape
    rw [List.map_map, List.map_map] at this
    exact this

/-- A pool whose only game of the open week is a pick'em (spread exactly
0) between two unused teams. -/
def dbPickem : DB :=
  { users := [{ id := 1, username := "alice", livesRemaining := 2,
                isEliminated := false, cumulativeSpread := 0 }],
    teams := [⟨1, "Alpha"⟩, ⟨2, "Beta"⟩],
    weeks := [{ id := 1, weekNumber := 1, deadline := 10, isActive := true,
                isComplete := false, isPlayoffWeek := false }],
    games := [{ id := 1, weekId := 1, homeTeamId := some 1, awayTeamId := some 2,
                homeTeamName := none, awayTeamName := none,
                homeTeamSpread := 0, gameTime := some 100, homeTeamWon := none }],
    picks := [] }

/-- Witness for `autopick_pickem_failure` at the concrete pool `dbPickem`. -/
theorem autopick_pickem_failure_witness :
    "alice" ∈ (process_autopicks dbPickem 1 20 20).2.failures
    ∧ ¬ ∃ p ∈ (process_autopicks dbPickem 1 20 20).1.picks,
        p.userId = 1 ∧ p.weekId = 1 := by
  have hz : ∀ g ∈ autopickGames dbPickem 1 20,
      (∀ t, gameHomeTeam dbPickem g = some t →
        ¬ t.id ∈ usedTeamIds dbPickem 1 1 (is_week_playoff
          { id := 1, weekNumber := 1, deadline := 10, isActive := true,
            isComplete := false, isPlayoffWeek := false }) →
        ¬ (is_week_playoff
          { id := 1, weekNumber := 1, deadline := 10, isActive := true,
            isComplete := false, isPlayoffWeek := false } = true
           ∧ t.name ∈ autopickCfp dbPickem
          { id := 1, weekNumber := 1, deadline := 10, isActive := true,
            isComplete := false, isPlayoffWeek := false }) →
        g.homeTeamSpread = 0)
      ∧ (∀ t, gameAwayTeam dbPickem g = some t →
        ¬ t.id ∈ usedTeamIds dbPickem 1 1 (is_week_playoff
          { id := 1, weekNumber := 1, deadline := 10, isActive := true,
            isComplete := false, isPlayoffWeek := false }) →
        ¬ (is_week_playoff
          { id := 1, weekNumber := 1, deadline := 10, isActive := true,
            isComplete := false, isPlayoffWeek := false } = true
           ∧ t.name ∈ autopickCfp dbPickem
          { id := 1, weekNumber := 1, deadline := 10, isActive := true,
            isComplete := false, isPlayoffWeek := false }) →
        g.homeTeamSpread = 0) := by
    intro g hg
    have hlist : autopickGames dbPickem 1 20
        = [{ id := 1, weekId := 1, homeTeamId := some 1, awayTeamId := some 2,
             homeTeamName := none, awayTeamName := none,
             homeTeamSpread := 0, gameTime := some 100, homeTeamWon := none }] := by
      decide
    rw [hlist, List.mem_singleton] at hg
    subst hg
    exact ⟨fun t _ _ _ => by decide, fun t _ _ _ => by decide⟩
  have h := autopick_pickem_failure dbPickem 1 20 20
    { id := 1, weekNumber := 1, deadline := 10, isActive := true,
      isComplete := false, isPlayoffWeek := false }
    { id := 1, username := "alice", livesRemaining := 2,
      isEliminated := false, cumulativeSpread := 0 }
    (by decide) (by decide) (by decide) hz
  exact ⟨h.1, h.2.1⟩

/-! ### The revival rule (C2) -/

/-- When the code's revival condition holds (non-empty snapshot as large as
the active set, every snapshot user at 0 lives), every snapshot user is
reset. -/
theorem revivalPhase_fires (d : DB) (S : List Nat) (n : Nat)
    (h1 : S ≠ []) (h2 : S.length = n)
    (h3 : ∀ u ∈ d.users, u.id ∈ S → u.livesRemaining = 0) :
    revivalPhase d S n = { d with users := d.users.map (fun u =>
      if S.contains u.id then { u with livesRemaining := 1, isEliminated := false }
      else u) } := by
  unfold revivalPhase
  have hcond : (!S.isEmpty && S.length == n) = true := by
    simp [h1, h2]
  rw [if_pos hcond]
  dsimp only
  have hall : (d.users.filter (fun u => S.contains u.id)).all
      (fun u => u.livesRemaining == 0) = true := by
    rw [List.all_eq_true]
    intro u hu
    obtain ⟨hum, hcont⟩ := List.mem_filter.mp hu
    simpa using h3 u hum (by simpa using hcont)
  rw [if_pos hall]

/-- When the code's revival condition fails, nothing is restored. -/
theorem revivalPhase_skips (d : DB) (S : List Nat) (n : Nat)
    (h : ¬(S ≠ [] ∧ S.length = n ∧ ∀ u ∈ d.users, u.id ∈ S → u.livesRemaining = 0)) :
    revivalPhase d S n = d := by
  unfold revivalPhase
  by_cases h1 : (!S.isEmpty && S.length == n) = true
  · rw [if_pos h1]
    dsimp only
    by_cases h2 : (d.users.filter (fun u => S.contains u.id)).all
        (fun u => u.livesRemaining == 0) = true
    · exfalso
      apply h
      refine ⟨?_, ?_, ?_⟩
      · have := (Bool.and_eq_true _ _ ▸ h1).1
        simpa using this
      · have := (Bool.and_eq_true _ _ ▸ h1).2
        simpa using this
      · intro u hum hid
        have := List.all_eq_true.mp h2 u
          (List.mem_filter.mpr ⟨hum, by simpa using hid⟩)
        simpa using this
    · rw [if_neg h2]
  · rw [if_neg h1]

/-- The snapshot is as large as the (deduplicated) active-user-id set
exactly when every active user holds exactly one life. -/
theorem snapshot_length_iff (db : DB)
    (hnodup : (db.users.map (fun u => u.id)).Nodup) :
    (oneLifeSnapshot db).length = (activeUserIds db).length
    ↔ ∀ u ∈ db.users, u.isEliminated = false → u.livesRemaining = 1 := by
  unfold oneLifeSnapshot activeUserIds
  have hnd : ((db.users.filter (fun u => !u.isEliminated)).map (fun u => u.id)).Nodup :=
    hnodup.sublist ((List.filter_sublist db.users).map (fun u => u.id))
  rw [List.dedup_eq_self.mpr hnd, List.length_map, List.length_map]
  rw [List.filter_length_eq_length]
  constructor
  · intro h u hu helim
    have := h u (List.mem_filter.mpr ⟨hu, by simpa using helim⟩)
    simpa using this
  · intro h u hu
    obtain ⟨hum, helim⟩ := List.mem_filter.mp hu
    simpa using h u hum (by simpa using helim)

/-- C2.  The revival rule: with the snapshot `S` of active one-life user
ids taken at the start of `process_week_results`, (i) if `S` is non-empty,
every active user entered the week on exactly one life, and every
`S`-user sits at 0 lives after the main pass, then every `S`-user ends at
1 life, un-eliminated; (ii) in every other case the revival branch changes
nothing — the final state is exactly the post-processing state; (iii) in
particular a lone active user at 1 life who ends the week at 0 lives is
revived. -/
theorem revival_rule_characterization (db : DB) (wid : Nat)
    (hnodup : (db.users.map (fun u => u.id)).Nodup) :
    (((oneLifeSnapshot db) ≠ []
      ∧ (∀ u ∈ db.users, u.isEliminated = false → u.livesRemaining = 1)
      ∧ (∀ u' ∈ (processAllPicks db wid).users,
          u'.id ∈ oneLifeSnapshot db → u'.livesRemaining = 0)) →
      ∀ u' ∈ (process_week_results db wid).users,
        u'.id ∈ oneLifeSnapshot db →
          u'.livesRemaining = 1 ∧ u'.isEliminated = false)
    ∧ (¬((oneLifeSnapshot db) ≠ []
      ∧ (∀ u ∈ db.users, u.isEliminated = false → u.livesRemaining = 1)
      ∧ (∀ u' ∈ (processAllPicks db wid).users,
          u'.id ∈ oneLifeSnapshot db → u'.livesRemaining = 0)) →
      process_week_results db wid = processAllPicks db wid)
    ∧ (∀ u0, db.users.filter (fun u => !u.isEliminated) = [u0] →
        u0.livesRemaining = 1 →
        (∀ u' ∈ (processAllPicks db wid).users,
          u'.id = u0.id → u'.livesRemaining = 0) →
        ∀ u' ∈ (process_week_results db wid).users, u'.id = u0.id →
          u'.livesRemaining = 1 ∧ u'.isEliminated = false) := by
  have hfin : process_week_results db wid
      = revivalPhase (processAllPicks db wid) (oneLifeSnapshot db)
          (activeUserIds db).length := rfl
  have main1 : ((oneLifeSnapshot db) ≠ []
      ∧ (∀ u ∈ db.users, u.isEliminated = false → u.livesRemaining = 1)
      ∧ (∀ u' ∈ (processAllPicks db wid).users,
          u'.id ∈ oneLifeSnapshot db → u'.livesRemaining = 0)) →
      ∀ u' ∈ (process_week_results db wid).users,
        u'.id ∈ oneLifeSnapshot db →
          u'.livesRemaining = 1 ∧ u'.isEliminated = false := by
    rintro ⟨hne, hones, hzero⟩ u' hu' hid
    rw [hfin, revivalPhase_fires (processAllPicks db wid) (oneLifeSnapshot db)
      (activeUserIds db).length hne ((snapshot_length_iff db hnodup).mpr hones)
      hzero] at hu'
    dsimp only at hu'
    obtain ⟨v, hv, hveq⟩ := List.mem_map.mp hu'
    by_cases hc : (oneLifeSnapshot db).contains v.id
    · rw [if_pos hc] at hveq
      rw [← hveq]
      exact ⟨rfl, rfl⟩
    · rw [if_neg hc] at hveq
      subst hveq
      exact absurd (by simpa using hid) hc
  refine ⟨main1, ?_, ?_⟩
  · intro hneg
    rw [hfin]
    apply revivalPhase_skips
    rintro ⟨hne, hlen, hzero⟩
    exact hneg ⟨hne, (snapshot_length_iff db hnodup).mp hlen, hzero⟩
  · intro u0 hactive hone hzero u' hu' hid
    have hsnap : oneLifeSnapshot db = [u0.id] := by
      unfold oneLifeSnapshot
      rw [hactive]
      simp [List.filter_cons, hone]
    apply main1 ?_ u' hu' (by rw [hsnap]; exact hid ▸ List.mem_singleton_self u0.id)
    refine ⟨by rw [hsnap]; exact List.cons_ne_nil _ _, ?_, ?_⟩
    · intro u hu helim
      have hmem : u ∈ db.users.filter (fun v => !v.isEliminated) :=
        List.mem_filter.mpr ⟨hu, by simpa using helim⟩
      rw [hactive, List.mem_singleton] at hmem
      rw [hmem]
      exact hone
    · intro v hv hvid
      rw [hsnap, List.mem_singleton] at hvid
      exact hzero v hv hvid

/-- A pool of two active users, both on their last life, both picking the
losing team. -/
def dbRevive : DB :=
  { users := [{ id := 1, username := "a", livesRemaining := 1,
                isEliminated := false, cumulativeSpread := 0 },
              { id := 2, username := "b", livesRemaining := 1,
                isEliminated := false, cumulativeSpread := 0 }],
    teams := [⟨1, "Alpha"⟩, ⟨2, "Beta"⟩],
    weeks := [{ id := 1, weekNumber := 1, deadline := 0, isActive := true,
                isComplete := false, isPlayoffWeek := false }],
    games := [{ id := 1, weekId := 1, homeTeamId := some 1, awayTeamId := some 2,
                homeTeamName := none, awayTeamName := none,
                homeTeamSpread := -3, gameTime := some 1, homeTeamWon := some false }],
    picks := [{ id := 1, userId := 1, weekId := 1, teamId := 1,
                isCorrect := none, createdAt := 0 },
              { id := 2, userId := 2, weekId := 1, teamId := 1,
                isCorrect := none, createdAt := 0 }] }

/-- Witness for `revival_rule_characterization`: in `dbRevive` both users
lose their last life and are revived. -/
theorem revival_rule_characterization_witness :
    ((dbRevive.users.map (fun u => u.id)).Nodup
      ∧ (oneLifeSnapshot dbRevive) ≠ []
      ∧ (∀ u ∈ dbRevive.users, u.isEliminated = false → u.livesRemaining = 1)
      ∧ (∀ u' ∈ (processAllPicks dbRevive 1).users,
          u'.id ∈ oneLifeSnapshot dbRevive → u'.livesRemaining = 0))
    ∧ (∀ u' ∈ (process_week_results dbRevive 1).users,
        u'.id ∈ oneLifeSnapshot dbRevive →
          u'.livesRemaining = 1 ∧ u'.isEliminated = false) :=
  ⟨⟨by decide, by decide, by decide, by decide⟩,
   (revival_rule_characterization dbRevive 1 (by decide)).1
     ⟨by decide, by decide, by decide⟩⟩

/-! ### Result processing per pick (C3) -/

/-- `Pick.query.get(pick_id)` — row lookup by primary key. -/
def pickById (d : DB) (pid : Nat) : Option Pick :=
  (d.picks.filter (fun p => p.id == pid)).head?

/-- The (lives, eliminated) state of a user row. -/
def userLifeState (u : User) : Int × Bool :=
  (u.livesRemaining, u.isEliminated)

theorem head_filter_condmap_other {α : Type} (key : α → Nat) (upd : α → α)
    (hupd : ∀ a, key (upd a) = key a) (l : List α) (k j : Nat) (hne : j ≠ k) :
    ((l.map (fun a => if key a == j then upd a else a)).filter
        (fun a => key a == k)).head?
      = (l.filter (fun a => key a == k)).head? := by
  induction l with
  | nil => rfl
  | cons a l ih =>
    by_cases hj : key a = j
    · have h1 : (key a == j) = true := beq_iff_eq.mpr hj
      have hk : (key (upd a) == k) = false := by
        rw [hupd a, hj]
        exact beq_eq_false_iff_ne.mpr hne
      have hk' : (key a == k) = false := by
        rw [hj]
        exact beq_eq_false_iff_ne.mpr hne
      simp only [List.map_cons, List.filter_cons, h1, if_true, ite_true, hk, hk',
        Bool.false_eq_true, if_false, ite_false]
      exact ih
    · have hj' : (key a == j) = false := beq_eq_false_iff_ne.mpr hj
      simp only [List.map_cons, List.filter_cons, hj', Bool.false_eq_true,
        if_false, ite_false]
      by_cases hk : key a = k
      · simp only [beq_iff_eq.mpr hk, if_true, ite_true, List.head?_cons]
      · simp only [beq_eq_false_iff_ne.mpr hk, Bool.false_eq_true, if_false, ite_false]
        exact ih

theorem head_filter_condmap_hit {α : Type} (key : α → Nat) (upd : α → α)
    (hupd : ∀ a, key (upd a) = key a) (l : List α) (k : Nat) :
    ((l.map (fun a => if key a == k then upd a else a)).filter
        (fun a => key a == k)).head?
      = ((l.filter (fun a => key a == k)).head?).map upd := by
  induction l with
  | nil => rfl
  | cons a l ih =>
    by_cases hk : key a = k
    · have h1 : (key a == k) = true := beq_iff_eq.mpr hk
      have h2 : (key (upd a) == k) = true := beq_iff_eq.mpr (by rw [hupd a]; exact hk)
      simp only [List.map_cons, List.filter_cons, h1, if_true, ite_true, h2,
        List.head?_cons]
      rfl
    · have h1 : (key a == k) = false := beq_eq_false_iff_ne.mpr hk
      simp only [List.map_cons, List.filter_cons, h1, Bool.false_eq_true,
        if_false, ite_false]
      exact ih

theorem findUser_recalc_lifeState (d : DB) (uid' uid : Nat) :
    (findUser (recalcSpread d uid') uid).map userLifeState
      = (findUser d uid).map userLifeState := by
  unfold findUser recalcSpread
  dsimp only
  by_cases h : uid' = uid
  · subst h
    rw [head_filter_condmap_hit (fun u => u.id) _ (by intro a; rfl) d.users uid']
    cases (d.users.filter (fun u => u.id == uid')).head? <;> rfl
  · rw [head_filter_condmap_other (fun u => u.id) _ (by intro a; rfl) d.users uid uid' h]

theorem teamGameWithResult_congr (d db : DB) (hg : d.games = db.games) :
    teamGameWithResult d = teamGameWithResult db := by
  funext wid tid
  unfold teamGameWithResult weekGames
  rw [hg]

theorem processOnePick_pickById_frame (d : DB) (wid : Nat) (q : Pick)
    (pid : Nat) (hne : q.id ≠ pid) :
    pickById (processOnePick d wid q) pid = pickById d pid := by
  unfold processOnePick pickById
  rw [recalcSpread_picks]
  cases teamGameWithResult d wid q.teamId with
  | none => rfl
  | some g =>
    dsimp only
    split <;>
    · rw [apply_ite (fun db : DB => db.picks)]
      dsimp only
      rw [ite_self]
      apply head_filter_condmap_other
      · intro a
        rfl
      · exact hne

theorem processOnePick_user_frame (d : DB) (wid : Nat) (q : Pick)
    (uid : Nat) (hne : q.userId ≠ uid) :
    (findUser (processOnePick d wid q) uid).map userLifeState
      = (findUser d uid).map userLifeState := by
  unfold processOnePick
  rw [findUser_recalc_lifeState]
  cases teamGameWithResult d wid q.teamId with
  | none => rfl
  | some g =>
    dsimp only
    split <;> split
    all_goals
      first
      | rfl
      | (unfold findUser
         dsimp only
         refine congrArg (Option.map userLifeState) ?_
         apply head_filter_condmap_other
         · intro a
           dsimp only
           split <;> rfl
         · exact hne)

theorem pickById_recalc (d : DB) (uid pid : Nat) :
    pickById (recalcSpread d uid) pid = pickById d pid := by
  unfold pickById
  rw [recalcSpread_picks]

/-- The effect of `processOnePick` on the processed pick and its user, when
the located game has a recorded winner. -/
theorem processOnePick_effect (d : DB) (wid : Nat) (p stored : Pick)
    (g : Game) (hw : Bool)
    (hfound : teamGameWithResult d wid p.teamId = some g)
    (hwin : g.homeTeamWon = some hw)
    (hstored : pickById d p.id = some stored) :
    pickById (processOnePick d wid p) p.id
      = some { stored with
               isCorrect := some (if g.homeTeamId == some p.teamId then hw else !hw) }
    ∧ ((if g.homeTeamId == some p.teamId then hw else !hw) = false →
        (findUser (processOnePick d wid p) p.userId).map userLifeState
          = ((findUser d p.userId).map userLifeState).map
              (fun s => if s.1 - 1 ≤ 0 then ((0 : Int), true) else (s.1 - 1, s.2)))
    ∧ ((if g.homeTeamId == some p.teamId then hw else !hw) = true →
        (findUser (processOnePick d wid p) p.userId).map userLifeState
          = (findUser d p.userId).map userLifeState) := by
  unfold processOnePick
  rw [hfound]
  simp only [hwin, Option.getD_some]
  by_cases hc : (if g.homeTeamId == some p.teamId then hw else !hw) = true
  · rw [if_pos hc]
    refine ⟨?_, ?_, ?_⟩
    · rw [pickById_recalc]
      unfold pickById
      dsimp only
      rw [head_filter_condmap_hit (fun q => q.id) _ (by intro a; rfl) d.picks p.id]
      rw [show (d.picks.filter (fun q => q.id == p.id)).head? = some stored from hstored]
      rfl
    · intro hfalse
      rw [hc] at hfalse
      cases hfalse
    · intro _
      rw [findUser_recalc_lifeState]
      rfl
  · rw [if_neg hc]
    have hcf : (if g.homeTeamId == some p.teamId then hw else !hw) = false :=
      Bool.eq_false_iff.mpr hc
    refine ⟨?_, ?_, ?_⟩
    · rw [pickById_recalc]
      unfold pickById
      dsimp only
      rw [head_filter_condmap_hit (fun q => q.id) _ (by intro a; rfl) d.picks p.id]
      rw [show (d.picks.filter (fun q => q.id == p.id)).head? = some stored from hstored]
      rfl
    · intro _
      rw [findUser_recalc_lifeState]
      unfold findUser
      dsimp only
      rw [head_filter_condmap_hit (fun u => u.id) _
        (by intro a; split <;> rfl) d.users p.userId]
      cases (d.users.filter (fun u => u.id == p.userId)).head? with
      | none => rfl
      | some u =>
        simp only [Option.map_some']
        dsimp only [userLifeState]
        split <;> rfl
    · intro htrue
      rw [hcf] at htrue
      cases htrue

theorem foldPicks_games (wid : Nat) (l : List Pick) :
    ∀ d : DB, (l.foldl (fun d p => processOnePick d wid p) d).games = d.games := by
  induction l with
  | nil => intro d; rfl
  | cons q l ih =>
    intro d
    rw [List.foldl_cons, ih, processOnePick_games]

theorem foldPicks_pickById_frame (wid pid : Nat) (l : List Pick)
    (h : ∀ q ∈ l, q.id ≠ pid) :
    ∀ d : DB, pickById (l.foldl (fun d p => processOnePick d wid p) d) pid
      = pickById d pid := by
  induction l with
  | nil => intro d; rfl
  | cons q l ih =>
    intro d
    rw [List.foldl_cons, ih (fun x hx => h x (List.mem_cons_of_mem q hx)),
      processOnePick_pickById_frame d wid q pid (h q (List.mem_cons_self q l))]

theorem foldPicks_user_frame (wid uid : Nat) (l : List Pick)
    (h : ∀ q ∈ l, q.userId ≠ uid) :
    ∀ d : DB, (findUser (l.foldl (fun d p => processOnePick d wid p) d) uid).map userLifeState
      = (findUser d uid).map userLifeState := by
  induction l with
  | nil => intro d; rfl
  | cons q l ih =>
    intro d
    rw [List.foldl_cons, ih (fun x hx => h x (List.mem_cons_of_mem q hx)),
      processOnePick_user_frame d wid q uid (h q (List.mem_cons_self q l))]

/-- C3.  For every pick of the week whose located game carries a recorded
winner, the main pass of `process_week_results` stores
`is_correct = (picked team is home ∧ home won) ∨ (picked team is away ∧
home did not win)` — i.e. `home_team_won` for a home pick and its negation
otherwise — and, exactly when that value is false, decrements the picking
user's lives by one, clamping at 0 and flagging elimination when the
result reaches 0 or below; a correct pick leaves the user's lives and
elimination flag untouched.  Hypotheses: distinct pick primary keys and at
most one pick per user in the week (the Pick table's unique constraint). -/
theorem pick_marking_and_life_deduction (db : DB) (wid : Nat)
    (hpid : (db.picks.map (fun q => q.id)).Nodup)
    (p : Pick) (hp : p ∈ weekPicks db wid)
    (huser : ∀ q ∈ weekPicks db wid, q.id ≠ p.id → q.userId ≠ p.userId)
    (g : Game) (hw : Bool)
    (hfound : teamGameWithResult db wid p.teamId = some g)
    (hwin : g.homeTeamWon = some hw) :
    pickById (processAllPicks db wid) p.id
      = some { p with
               isCorrect := some (if g.homeTeamId == some p.teamId then hw else !hw) }
    ∧ ((if g.homeTeamId == some p.teamId then hw else !hw) = false →
        (findUser (processAllPicks db wid) p.userId).map userLifeState
          = ((findUser db p.userId).map userLifeState).map
              (fun s => if s.1 - 1 ≤ 0 then ((0 : Int), true) else (s.1 - 1, s.2)))
    ∧ ((if g.homeTeamId == some p.teamId then hw else !hw) = true →
        (findUser (processAllPicks db wid) p.userId).map userLifeState
          = (findUser db p.userId).map userLifeState) := by
  obtain ⟨l1, l2, hsplit⟩ := List.append_of_mem hp
  have hwpid : ((weekPicks db wid).map (fun q => q.id)).Nodup :=
    hpid.sublist ((List.filter_sublist db.picks).map (fun q => q.id))
  rw [hsplit, List.map_append, List.map_cons, List.nodup_append] at hwpid
  have hl1id : ∀ q ∈ l1, q.id ≠ p.id := fun q hq he =>
    hwpid.2.2 (List.mem_map_of_mem _ hq) (by rw [he]; exact List.mem_cons_self _ _)
  have hl2id : ∀ q ∈ l2, q.id ≠ p.id := fun q hq he =>
    (List.nodup_cons.mp hwpid.2.1).1 (he ▸ List.mem_map_of_mem (fun q => q.id) hq)
  have hl1u : ∀ q ∈ l1, q.userId ≠ p.userId := fun q hq =>
    huser q (by rw [hsplit]; exact List.mem_append_left _ hq) (hl1id q hq)
  have hl2u : ∀ q ∈ l2, q.userId ≠ p.userId := fun q hq =>
    huser q (by rw [hsplit]; exact List.mem_append_right _ (List.mem_cons_of_mem p hq))
      (hl2id q hq)
  have hpdb : p ∈ db.picks := List.mem_of_mem_filter hp
  have hstored : pickById db p.id = some p := by
    unfold pickById
    exact head_filter_key_eq (fun q => q.id) db.picks p hpid hpdb
  unfold processAllPicks
  rw [hsplit, List.foldl_append, List.foldl_cons]
  set d1 := l1.foldl (fun d q => processOnePick d wid q) db with hd1
  have hg1 : d1.games = db.games := foldPicks_games wid l1 db
  have hfound1 : teamGameWithResult d1 wid p.teamId = some g := by
    rw [teamGameWithResult_congr d1 db hg1]
    exact hfound
  have hstored1 : pickById d1 p.id = some p := by
    rw [hd1, foldPicks_pickById_frame wid p.id l1 hl1id db]
    exact hstored
  have huser1 : (findUser d1 p.userId).map userLifeState
      = (findUser db p.userId).map userLifeState := by
    rw [hd1, foldPicks_user_frame wid p.userId l1 hl1u db]
  obtain ⟨e1, e2, e3⟩ := processOnePick_effect d1 wid p p g hw hfound1 hwin hstored1
  refine ⟨?_, ?_, ?_⟩
  · rw [foldPicks_pickById_frame wid p.id l2 hl2id (processOnePick d1 wid p), e1]
  · intro hf
    rw [foldPicks_user_frame wid p.userId l2 hl2u (processOnePick d1 wid p), e2 hf, huser1]
  · intro ht
    rw [foldPicks_user_frame wid p.userId l2 hl2u (processOnePick d1 wid p), e3 ht, huser1]

/-- A pool exercising `pick_marking_and_life_deduction`: one user at two
lives picking the losing home team. -/
def dbMark3 : DB :=
  { users := [{ id := 1, username := "alice", livesRemaining := 2,
                isEliminated := false, cumulativeSpread := 0 }],
    teams := [⟨1, "Alpha"⟩, ⟨2, "Beta"⟩],
    weeks := [{ id := 1, weekNumber := 1, deadline := 0, isActive := true,
                isComplete := false, isPlayoffWeek := false }],
    games := [{ id := 1, weekId := 1, homeTeamId := some 1, awayTeamId := some 2,
                homeTeamName := none, awayTeamName := none,
                homeTeamSpread := -3, gameTime := some 1, homeTeamWon := some false }],
    picks := [{ id := 1, userId := 1, weekId := 1, teamId := 1,
                isCorrect := none, createdAt := 0 }] }

/-- Witness for `pick_marking_and_life_deduction` at `dbMark3`: the home
pick of the losing team is marked incorrect and the user drops from 2 to 1
lives without being eliminated. -/
theorem pick_marking_and_life_deduction_witness :
    pickById (processAllPicks dbMark3 1) 1
      = some { id := 1, userId := 1, weekId := 1, teamId := 1,
               isCorrect := some false, createdAt := 0 }
    ∧ (findUser (processAllPicks dbMark3 1) 1).map userLifeState
      = some ((1 : Int), false) := by
  have h := pick_marking_and_life_deduction dbMark3 1 (by decide)
    { id := 1, userId := 1, weekId := 1, teamId := 1,
      isCorrect := none, createdAt := 0 }
    (by decide)
    (by decide)
    { id := 1, weekId := 1, homeTeamId := some 1, awayTeamId := some 2,
      homeTeamName := none, awayTeamName := none,
      homeTeamSpread := -3, gameTime := some 1, homeTeamWon := some false }
    false (by decide) (by decide)
  refine ⟨?_, ?_⟩
  · have := h.1
    simpa using this
  · have h2 := h.2.1 (by decide)
    rw [h2]
    decide

/-! ### Standings (C9) -/

/-- The standings ORDER BY key as a relation: lives descending, then
cumulative spread ascending. -/
def StandingsRel (u v : User) : Prop :=
  v.livesRemaining < u.livesRemaining
  ∨ (u.livesRemaining = v.livesRemaining ∧ u.cumulativeSpread ≤ v.cumulativeSpread)

theorem standingsLe_iff (u v : User) :
    standingsLe u v = true ↔ StandingsRel u v := by
  unfold standingsLe StandingsRel
  simp [Bool.or_eq_true, Bool.and_eq_true, decide_eq_true_eq, beq_iff_eq]

theorem standingsRel_total (u v : User) : StandingsRel u v ∨ StandingsRel v u := by
  unfold StandingsRel
  rcases lt_trichotomy u.livesRemaining v.livesRemaining with h | h | h
  · exact Or.inr (Or.inl h)
  · rcases le_total u.cumulativeSpread v.cumulativeSpread with hs | hs
    · exact Or.inl (Or.inr ⟨h, hs⟩)
    · exact Or.inr (Or.inr ⟨h.symm, hs⟩)
  · exact Or.inl (Or.inl h)

theorem standingsRel_trans (u v w : User)
    (h1 : StandingsRel u v) (h2 : StandingsRel v w) : StandingsRel u w := by
  unfold StandingsRel at *
  rcases h1 with h1 | ⟨h1, h1'⟩
  · rcases h2 with h2 | ⟨h2, _⟩
    · exact Or.inl (h2.trans h1)
    · exact Or.inl (h2 ▸ h1)
  · rcases h2 with h2 | ⟨h2, h2'⟩
    · exact Or.inl (h1 ▸ h2)
    · exact Or.inr ⟨h1.trans h2, h1'.trans h2'⟩

theorem orderedInsert_perm (le : User → User → Bool) (a : User) (l : List User) :
    (orderedInsert le a l).Perm (a :: l) := by
  induction l with
  | nil => exact List.Perm.refl _
  | cons b bs ih =>
    unfold orderedInsert
    split
    · exact List.Perm.refl _
    · exact ((ih.cons b).trans (List.Perm.swap a b bs))

theorem orderBySort_perm (le : User → User → Bool) (l : List User) :
    (orderBySort le l).Perm l := by
  induction l with
  | nil => exact List.Perm.refl _
  | cons a as ih =>
    unfold orderBySort
    exact (orderedInsert_perm le a (orderBySort le as)).trans (ih.cons a)

theorem mem_orderedInsert (le : User → User → Bool) (a x : User) (l : List User) :
    x ∈ orderedInsert le a l ↔ x = a ∨ x ∈ l := by
  rw [(orderedInsert_perm le a l).mem_iff, List.mem_cons]

theorem orderedInsert_pairwise (a : User) (l : List User)
    (hl : List.Pairwise StandingsRel l) :
    List.Pairwise StandingsRel (orderedInsert standingsLe a l) := by
  induction l with
  | nil => exact List.pairwise_singleton _ a
  | cons b bs ih =>
    unfold orderedInsert
    by_cases hle : standingsLe a b = true
    · rw [if_pos hle, List.pairwise_cons]
      refine ⟨?_, hl⟩
      intro x hx
      rcases List.mem_cons.mp hx with rfl | hx'
      · exact (standingsLe_iff a x).mp hle
      · exact standingsRel_trans a b x ((standingsLe_iff a b).mp hle)
          ((List.pairwise_cons.mp hl).1 x hx')
    · rw [if_neg hle]
      rw [List.pairwise_cons] at hl
      rw [List.pairwise_cons]
      refine ⟨?_, ih hl.2⟩
      intro x hx
      rcases (mem_orderedInsert standingsLe a x bs).mp hx with rfl | hx'
      · rcases standingsRel_total b x with h | h
        · exact h
        · exact absurd ((standingsLe_iff x b).mpr h) hle
      · exact hl.1 x hx'

theorem orderBySort_pairwise (l : List User) :
    List.Pairwise StandingsRel (orderBySort standingsLe l) := by
  induction l with
  | nil => exact List.Pairwise.nil
  | cons a as ih =>
    unfold orderBySort
    exact orderedInsert_pairwise a (orderBySort standingsLe as) ih

/-- The per-pick contribution the spec describes: locate the pick's game,
take the picked team's signed spread `s`; contribute `+|s|` when the team
was favored (`s < 0`) and `-s` otherwise. -/
def pickSpreadContribution (db : DB) (p : Pick) : ℚ :=
  match teamGame db p.weekId p.teamId with
  | some g =>
    let teamSpread :=
      if g.homeTeamId == some p.teamId then g.homeTeamSpread
      else -g.homeTeamSpread
    if teamSpread < 0 then |teamSpread| else -teamSpread
  | none => 0

/-- The claim-side cumulative spread: the plain sum of the per-pick
contributions over all of the user's picks. -/
def claimSpreadSum (db : DB) (uid : Nat) : ℚ :=
  ((db.picks.filter (fun p => p.userId == uid)).map (pickSpreadContribution db)).sum

theorem spread_step_eq (db : DB) (init : ℚ) (p : Pick) :
    (match teamGame db p.weekId p.teamId with
      | some g =>
        let teamSpread :=
          if g.homeTeamId == some p.teamId then g.homeTeamSpread
          else -g.homeTeamSpread
        if teamSpread < 0 then init + |teamSpread| else init - teamSpread
      | none => init)
      = init + pickSpreadContribution db p := by
  unfold pickSpreadContribution
  cases teamGame db p.weekId p.teamId with
  | none => simp
  | some g =>
    dsimp only
    split <;> split <;> simp [sub_eq_add_neg]

theorem spread_foldl_eq (db : DB) (l : List Pick) :
    ∀ init : ℚ,
      l.foldl (fun total p =>
        match teamGame db p.weekId p.teamId with
        | some g =>
          let teamSpread :=
            if g.homeTeamId == some p.teamId then g.homeTeamSpread
            else -g.homeTeamSpread
          if teamSpread < 0 then total + |teamSpread| else total - teamSpread
        | none => total) init
      = init + (l.map (pickSpreadContribution db)).sum := by
  induction l with
  | nil => intro init; simp
  | cons p l ih =>
    intro init
    rw [List.foldl_cons, ih, List.map_cons, List.sum_cons, spread_step_eq, add_assoc]

theorem calculate_eq_claimSum (db : DB) (uid : Nat) :
    calculate_cumulative_spread db uid = claimSpreadSum db uid := by
  unfold calculate_cumulative_spread claimSpreadSum
  rw [spread_foldl_eq db (db.picks.filter (fun p => p.userId == uid)) 0, zero_add]

/-- C9.  The standings list of `index` contains exactly the non-eliminated
users, each carrying a freshly recomputed cumulative spread; it is ordered
by lives remaining descending and then cumulative spread ascending; and
each listed user's cumulative spread is the sum, over all of that user's
picks, of `+|s|` when the picked team's signed spread `s` is negative
(favored) and `-s` when it is positive (underdog). -/
theorem standings_spec (db : DB) :
    (∀ u, u ∈ index_standings db ↔
      ∃ u0 ∈ db.users, u0.isEliminated = false
        ∧ u = { u0 with cumulativeSpread := calculate_cumulative_spread db u0.id })
    ∧ List.Pairwise StandingsRel (index_standings db)
    ∧ ∀ u ∈ index_standings db, u.cumulativeSpread = claimSpreadSum db u.id := by
  have hperm := orderBySort_perm standingsLe
    ((db.users.map (fun u =>
      { u with cumulativeSpread := calculate_cumulative_spread db u.id })).filter
      (fun u => !u.isEliminated))
  have hmem : ∀ u, u ∈ index_standings db ↔
      ∃ u0 ∈ db.users, u0.isEliminated = false
        ∧ u = { u0 with cumulativeSpread := calculate_cumulative_spread db u0.id } := by
    intro u
    unfold index_standings
    dsimp only
    constructor
    · intro hu
      obtain ⟨hmem', hne⟩ := List.mem_filter.mp (hperm.mem_iff.mp hu)
      obtain ⟨u0, hu0, rfl⟩ := List.mem_map.mp hmem'
      exact ⟨u0, hu0, by simpa using hne, rfl⟩
    · rintro ⟨u0, hu0, helim, rfl⟩
      exact hperm.mem_iff.mpr (List.mem_filter.mpr
        ⟨List.mem_map_of_mem _ hu0, by simpa using helim⟩)
  refine ⟨hmem, ?_, ?_⟩
  · unfold index_standings
    dsimp only
    exact orderBySort_pairwise _
  · intro u hu
    obtain ⟨u0, _, _, rfl⟩ := (hmem u).mp hu
    exact calculate_eq_claimSum db u0.id

/-- Witness for `standings_spec` at a concrete two-user pool: the standings
order and recomputed spreads evaluate as the theorem states. -/
def dbStand : DB :=
  { users := [{ id := 1, username := "alice", livesRemaining := 1,
                isEliminated := false, cumulativeSpread := 0 },
              { id := 2, username := "bob", livesRemaining := 2,
                isEliminated := false, cumulativeSpread := 0 },
              { id := 3, username := "carol", livesRemaining := 0,
                isEliminated := true, cumulativeSpread := 0 }],
    teams := [⟨1, "Alpha"⟩, ⟨2, "Beta"⟩],
    weeks := [{ id := 1, weekNumber := 1, deadline := 0, isActive := true,
                isComplete := false, isPlayoffWeek := false }],
    games := [{ id := 1, weekId := 1, homeTeamId := some 1, awayTeamId := some 2,
                homeTeamName := none, awayTeamName := none,
                homeTeamSpread := -7, gameTime := some 1, homeTeamWon := some true }],
    picks := [{ id := 1, userId := 1, weekId := 1, teamId := 2,
                isCorrect := some false, createdAt := 0 },
              { id := 2, userId := 2, weekId := 1, teamId := 2,
                isCorrect := some false, createdAt := 0 }] }

theorem standings_spec_witness :
    (({ id := 2, username := "bob", livesRemaining := 2,
        isEliminated := false, cumulativeSpread := -7 } : User) ∈ index_standings dbStand)
    ∧ List.Pairwise StandingsRel (index_standings dbStand) := by
  have h := standings_spec dbStand
  refine ⟨?_, h.2.1⟩
  apply (h.1 _).mpr
  refine ⟨{ id := 2, username := "bob", livesRemaining := 2,
            isEliminated := false, cumulativeSpread := 0 }, by decide, rfl, ?_⟩
  have hc : calculate_cumulative_spread dbStand 2 = -7 := by
    rw [calculate_eq_claimSum]
    simp [claimSpreadSum, dbStand, pickSpreadContribution, teamGame, weekGames]
  rw [hc]

/-! ### Eligible-team spread boundary (C6) -/

theorem findTeam_id (db : DB) (i : Nat) (t : Team) (h : findTeam db i = some t) :
    t.id = i := by
  have := head_filter_some_mem _ _ _ h
  simpa using this.2

theorem gameHomeTeam_id (db : DB) (g : Game) (t : Team)
    (h : gameHomeTeam db g = some t) : g.homeTeamId = some t.id := by
  unfold gameHomeTeam at h
  rcases hh : g.homeTeamId with _ | i
  · rw [hh] at h
    cases h
  · rw [hh] at h
    rw [Option.some_bind] at h
    rw [findTeam_id db i t h]

theorem gameAwayTeam_id (db : DB) (g : Game) (t : Team)
    (h : gameAwayTeam db g = some t) : g.awayTeamId = some t.id := by
  unfold gameAwayTeam at h
  rcases hh : g.awayTeamId with _ | i
  · rw [hh] at h
    cases h
  · rw [hh] at h
    rw [Option.some_bind] at h
    rw [findTeam_id db i t h]

theorem eligAwayCheck_append (db : DB) (now : Int) (playoff : Bool)
    (cfp : List String) (used : List Nat) (g : Game)
    (acc : List Team × List Nat) :
    ∃ δ1 δ2, eligAwayCheck db now playoff cfp used g acc
      = (acc.1 ++ δ1, acc.2 ++ δ2) := by
  unfold eligAwayCheck
  rcases gameAwayTeam db g with _ | t
  · exact ⟨[], [], by simp⟩
  · dsimp only
    split
    · split
      · exact ⟨[], [], by simp⟩
      · split
        · split
          · exact ⟨[t], [t.id], rfl⟩
          · exact ⟨[], [], by simp⟩
        · exact ⟨[], [], by simp⟩
    · exact ⟨[], [], by simp⟩

theorem eligGameStep_append (db : DB) (now : Int) (playoff : Bool)
    (cfp : List String) (used : List Nat) (acc : List Team × List Nat)
    (g : Game) :
    ∃ δ1 δ2, eligGameStep db now playoff cfp used acc g
      = (acc.1 ++ δ1, acc.2 ++ δ2) := by
  unfold eligGameStep
  rcases gameHomeTeam db g with _ | t
  · exact eligAwayCheck_append db now playoff cfp used g acc
  · dsimp only
    split
    · split
      · exact ⟨[], [], by simp⟩
      · split
        · split
          · obtain ⟨δ1, δ2, h⟩ := eligAwayCheck_append db now playoff cfp used g
              (acc.1 ++ [t], acc.2 ++ [t.id])
            exact ⟨[t] ++ δ1, [t.id] ++ δ2, by rw [h]; simp⟩
          · exact eligAwayCheck_append db now playoff cfp used g acc
        · exact eligAwayCheck_append db now playoff cfp used g acc
    · exact eligAwayCheck_append db now playoff cfp used g acc

theorem eligFold_append (db : DB) (now : Int) (playoff : Bool)
    (cfp : List String) (used : List Nat) (games : List Game) :
    ∀ acc, ∃ Δ1 Δ2,
      games.foldl (eligGameStep db now playoff cfp used) acc
        = (acc.1 ++ Δ1, acc.2 ++ Δ2) := by
  induction games with
  | nil => intro acc; exact ⟨[], [], by simp⟩
  | cons g gs ih =>
    intro acc
    rw [List.foldl_cons]
    obtain ⟨δ1, δ2, h1⟩ := eligGameStep_append db now playoff cfp used acc g
    obtain ⟨Δ1, Δ2, h2⟩ := ih (eligGameStep db now playoff cfp used acc g)
    refine ⟨δ1 ++ Δ1, δ2 ++ Δ2, ?_⟩
    rw [h2, h1]
    simp

theorem eligFold_mono (db : DB) (now : Int) (playoff : Bool)
    (cfp : List String) (used : List Nat) (games : List Game)
    (acc : List Team × List Nat) (t : Team) (h : t ∈ acc.1) :
    t ∈ (games.foldl (eligGameStep db now playoff cfp used) acc).1 := by
  obtain ⟨Δ1, Δ2, heq⟩ := eligFold_append db now playoff cfp used games acc
  rw [heq]
  exact List.mem_append_left _ h

/-- The facts guaranteed about a team appended by the home half of an
eligible-team iteration. -/
def HomeAdd (db : DB) (now : Int) (used : List Nat) (g : Game) (t : Team) : Prop :=
  gameHomeTeam db g = some t ∧ used.contains t.id = false
  ∧ g.homeTeamSpread ≥ -16 ∧ gameStartedBy g now = false

/-- The facts guaranteed about a team appended by the away half of an
eligible-team iteration. -/
def AwayAdd (db : DB) (now : Int) (used : List Nat) (g : Game) (t : Team) : Prop :=
  gameAwayTeam db g = some t ∧ used.contains t.id = false
  ∧ -g.homeTeamSpread ≥ -16 ∧ gameStartedBy g now = false

theorem eligAwayCheck_mem (db : DB) (now : Int) (playoff : Bool)
    (cfp : List String) (used : List Nat) (g : Game)
    (acc : List Team × List Nat) (t : Team)
    (h : t ∈ (eligAwayCheck db now playoff cfp used g acc).1) :
    t ∈ acc.1 ∨ AwayAdd db now used g t := by
  unfold eligAwayCheck at h
  rcases ha : gameAwayTeam db g with _ | ta <;> rw [ha] at h
  · exact Or.inl h
  · dsimp only at h
    by_cases h1 : (!(used.contains ta.id) && !(acc.2.contains ta.id)) = true
    · rw [if_pos h1] at h
      by_cases h2 : (playoff && cfp.contains ta.name) = true
      · rw [if_pos h2] at h
        exact Or.inl h
      · rw [if_neg h2] at h
        by_cases h3 : -g.homeTeamSpread ≥ -16
        · rw [if_pos h3] at h
          by_cases h4 : (!(gameStartedBy g now)) = true
          · rw [if_pos h4] at h
            rcases List.mem_append.mp h with h5 | h5
            · exact Or.inl h5
            · rw [List.mem_singleton.mp h5]
              rw [Bool.and_eq_true] at h1
              refine Or.inr ⟨ha, by simpa using h1.1, h3, by simpa using h4⟩
          · rw [if_neg h4] at h
            exact Or.inl h
        · rw [if_neg h3] at h
          exact Or.inl h
    · rw [if_neg h1] at h
      exact Or.inl h

theorem eligGameStep_mem (db : DB) (now : Int) (playoff : Bool)
    (cfp : List String) (used : List Nat) (acc : List Team × List Nat)
    (g : Game) (t : Team)
    (h : t ∈ (eligGameStep db now playoff cfp used acc g).1) :
    t ∈ acc.1 ∨ HomeAdd db now used g t ∨ AwayAdd db now used g t := by
  unfold eligGameStep at h
  rcases hh : gameHomeTeam db g with _ | th <;> rw [hh] at h
  · rcases eligAwayCheck_mem db now playoff cfp used g acc t h with h' | h'
    · exact Or.inl h'
    · exact Or.inr (Or.inr h')
  · dsimp only at h
    by_cases h1 : (!(used.contains th.id) && !(acc.2.contains th.id)) = true
    · rw [if_pos h1] at h
      by_cases h2 : (playoff && cfp.contains th.name) = true
      · rw [if_pos h2] at h
        exact Or.inl h
      · rw [if_neg h2] at h
        by_cases h3 : g.homeTeamSpread ≥ -16
        · rw [if_pos h3] at h
          by_cases h4 : (!(gameStartedBy g now)) = true
          · rw [if_pos h4] at h
            rcases eligAwayCheck_mem db now playoff cfp used g _ t h with h' | h'
            · rcases List.mem_append.mp h' with h5 | h5
              · exact Or.inl h5
              · rw [List.mem_singleton.mp h5]
                rw [Bool.and_eq_true] at h1
                exact Or.inr (Or.inl ⟨hh, by simpa using h1.1, h3, by simpa using h4⟩)
            · exact Or.inr (Or.inr h')
          · rw [if_neg h4] at h
            rcases eligAwayCheck_mem db now playoff cfp used g acc t h with h' | h'
            · exact Or.inl h'
            · exact Or.inr (Or.inr h')
        · rw [if_neg h3] at h
          rcases eligAwayCheck_mem db now playoff cfp used g acc t h with h' | h'
          · exact Or.inl h'
          · exact Or.inr (Or.inr h')
    · rw [if_neg h1] at h
      rcases eligAwayCheck_mem db now playoff cfp used g acc t h with h' | h'
      · exact Or.inl h'
      · exact Or.inr (Or.inr h')

theorem eligFold_mem (db : DB) (now : Int) (playoff : Bool)
    (cfp : List String) (used : List Nat) (games : List Game) :
    ∀ acc (t : Team),
      t ∈ (games.foldl (eligGameStep db now playoff cfp used) acc).1 →
      t ∈ acc.1 ∨ ∃ g ∈ games, HomeAdd db now used g t ∨ AwayAdd db now used g t := by
  induction games with
  | nil => intro acc t h; exact Or.inl h
  | cons g gs ih =>
    intro acc t h
    rw [List.foldl_cons] at h
    rcases ih _ t h with h' | ⟨g', hg', h'⟩
    · rcases eligGameStep_mem db now playoff cfp used acc g t h' with h'' | h''
      · exact Or.inl h''
      · exact Or.inr ⟨g, List.mem_cons_self g gs, h''⟩
    · exact Or.inr ⟨g', List.mem_cons_of_mem g hg', h'⟩

theorem eligAwayCheck_mem_ids (db : DB) (now : Int) (playoff : Bool)
    (cfp : List String) (used : List Nat) (g : Game)
    (acc : List Team × List Nat) (x : Nat)
    (h : x ∈ (eligAwayCheck db now playoff cfp used g acc).2) :
    x ∈ acc.2 ∨ g.awayTeamId = some x := by
  unfold eligAwayCheck at h
  rcases ha : gameAwayTeam db g with _ | ta <;> rw [ha] at h
  · exact Or.inl h
  · dsimp only at h
    by_cases h1 : (!(used.contains ta.id) && !(acc.2.contains ta.id)) = true
    · rw [if_pos h1] at h
      by_cases h2 : (playoff && cfp.contains ta.name) = true
      · rw [if_pos h2] at h
        exact Or.inl h
      · rw [if_neg h2] at h
        by_cases h3 : -g.homeTeamSpread ≥ -16
        · rw [if_pos h3] at h
          by_cases h4 : (!(gameStartedBy g now)) = true
          · rw [if_pos h4] at h
            rcases List.mem_append.mp h with h5 | h5
            · exact Or.inl h5
            · rw [List.mem_singleton.mp h5]
              exact Or.inr (gameAwayTeam_id db g ta ha)
          · rw [if_neg h4] at h
            exact Or.inl h
        · rw [if_neg h3] at h
          exact Or.inl h
    · rw [if_neg h1] at h
      exact Or.inl h

theorem eligGameStep_mem_ids (db : DB) (now : Int) (playoff : Bool)
    (cfp : List String) (used : List Nat) (acc : List Team × List Nat)
    (g : Game) (x : Nat)
    (h : x ∈ (eligGameStep db now playoff cfp used acc g).2) :
    x ∈ acc.2 ∨ g.homeTeamId = some x ∨ g.awayTeamId = some x := by
  unfold eligGameStep at h
  rcases hh : gameHomeTeam db g with _ | th <;> rw [hh] at h
  · rcases eligAwayCheck_mem_ids db now playoff cfp used g acc x h with h' | h'
    · exact Or.inl h'
    · exact Or.inr (Or.inr h')
  · dsimp only at h
    by_cases h1 : (!(used.contains th.id) && !(acc.2.contains th.id)) = true
    · rw [if_pos h1] at h
      by_cases h2 : (playoff && cfp.contains th.name) = true
      · rw [if_pos h2] at h
        exact Or.inl h
      · rw [if_neg h2] at h
        by_cases h3 : g.homeTeamSpread ≥ -16
        · rw [if_pos h3] at h
          by_cases h4 : (!(gameStartedBy g now)) = true
          · rw [if_pos h4] at h
            rcases eligAwayCheck_mem_ids db now playoff cfp used g _ x h with h' | h'
            · rcases List.mem_append.mp h' with h5 | h5
              · exact Or.inl h5
              · rw [List.mem_singleton.mp h5]
                exact Or.inr (Or.inl (gameHomeTeam_id db g th hh))
            · exact Or.inr (Or.inr h')
          · rw [if_neg h4] at h
            rcases eligAwayCheck_mem_ids db now playoff cfp used g acc x h with h' | h'
            · exact Or.inl h'
            · exact Or.inr (Or.inr h')
        · rw [if_neg h3] at h
          rcases eligAwayCheck_mem_ids db now playoff cfp used g acc x h with h' | h'
          · exact Or.inl h'
          · exact Or.inr (Or.inr h')
    · rw [if_neg h1] at h
      rcases eligAwayCheck_mem_ids db now playoff cfp used g acc x h with h' | h'
      · exact Or.inl h'
      · exact Or.inr (Or.inr h')

theorem eligFold_mem_ids (db : DB) (now : Int) (playoff : Bool)
    (cfp : List String) (used : List Nat) (games : List Game) :
    ∀ acc (x : Nat),
      x ∈ (games.foldl (eligGameStep db now playoff cfp used) acc).2 →
      x ∈ acc.2 ∨ ∃ g ∈ games, g.homeTeamId = some x ∨ g.awayTeamId = some x := by
  induction games with
  | nil => intro acc x h; exact Or.inl h
  | cons g gs ih =>
    intro acc x h
    rw [List.foldl_cons] at h
    rcases ih _ x h with h' | ⟨g', hg', h'⟩
    · rcases eligGameStep_mem_ids db now playoff cfp used acc g x h' with h'' | h''
      · exact Or.inl h''
      · exact Or.inr ⟨g, List.mem_cons_self g gs, h''⟩
    · exact Or.inr ⟨g', List.mem_cons_of_mem g hg', h'⟩

theorem eligAwayCheck_adds (db : DB) (now : Int) (playoff : Bool)
    (cfp : List String) (used : List Nat) (g : Game)
    (acc : List Team × List Nat) (t : Team)
    (ha : gameAwayTeam db g = some t)
    (hused : used.contains t.id = false)
    (hacc : acc.2.contains t.id = false)
    (hcfp : (playoff && cfp.contains t.name) = false)
    (hspread : -g.homeTeamSpread ≥ -16)
    (hstart : gameStartedBy g now = false) :
    t ∈ (eligAwayCheck db now playoff cfp used g acc).1 := by
  have hu : t.id ∉ used := by simpa using hused
  have hb : t.id ∉ acc.2 := by simpa using hacc
  have hc : ¬(playoff = true ∧ t.name ∈ cfp) := by
    rintro ⟨hp, hm⟩
    rw [hp] at hcfp
    simp at hcfp
    exact hcfp hm
  unfold eligAwayCheck
  rw [ha]
  dsimp only
  rw [if_pos (by simp [hu, hb]), if_neg (by simpa using hc), if_pos hspread,
    if_pos (by simp [hstart])]
  exact List.mem_append_right _ (List.mem_singleton_self t)

theorem eligGameStep_adds_home (db : DB) (now : Int) (playoff : Bool)
    (cfp : List String) (used : List Nat) (acc : List Team × List Nat)
    (g : Game) (t : Team)
    (hh : gameHomeTeam db g = some t)
    (hused : used.contains t.id = false)
    (hacc : acc.2.contains t.id = false)
    (hcfp : (playoff && cfp.contains t.name) = false)
    (hspread : g.homeTeamSpread ≥ -16)
    (hstart : gameStartedBy g now = false) :
    t ∈ (eligGameStep db now playoff cfp used acc g).1 := by
  have hu : t.id ∉ used := by simpa using hused
  have hb : t.id ∉ acc.2 := by simpa using hacc
  have hc : ¬(playoff = true ∧ t.name ∈ cfp) := by
    rintro ⟨hp, hm⟩
    rw [hp] at hcfp
    simp at hcfp
    exact hcfp hm
  unfold eligGameStep
  rw [hh]
  dsimp only
  rw [if_pos (by simp [hu, hb]), if_neg (by simpa using hc), if_pos hspread,
    if_pos (by simp [hstart])]
  obtain ⟨δ1, δ2, heq⟩ := eligAwayCheck_append db now playoff cfp used g
    (acc.1 ++ [t], acc.2 ++ [t.id])
  rw [heq]
  exact List.mem_append_left _ (List.mem_append_right _ (List.mem_singleton_self t))

theorem eligGameStep_adds_away (db : DB) (now : Int) (playoff : Bool)
    (cfp : List String) (used : List Nat) (acc : List Team × List Nat)
    (g : Game) (t : Team)
    (ha : gameAwayTeam db g = some t)
    (hused : used.contains t.id = false)
    (hacc : acc.2.contains t.id = false)
    (hcfp : (playoff && cfp.contains t.name) = false)
    (hhid : g.homeTeamId ≠ some t.id)
    (hnoskip : ∀ th, gameHomeTeam db g = some th →
      (playoff && cfp.contains th.name) = false)
    (hspread : -g.homeTeamSpread ≥ -16)
    (hstart : gameStartedBy g now = false) :
    t ∈ (eligGameStep db now playoff cfp used acc g).1 := by
  unfold eligGameStep
  rcases hh : gameHomeTeam db g with _ | th
  · exact eligAwayCheck_adds db now playoff cfp used g acc t ha hused hacc hcfp
      hspread hstart
  · dsimp only
    have hthid : th.id ≠ t.id := by
      intro he
      exact hhid (he ▸ gameHomeTeam_id db g th hh)
    have hcth : ¬(playoff = true ∧ th.name ∈ cfp) := by
      rintro ⟨hp, hm⟩
      have := hnoskip th hh
      rw [hp] at this
      simp at this
      exact this hm
    by_cases h1 : (!(used.contains th.id) && !(acc.2.contains th.id)) = true
    · rw [if_pos h1, if_neg (by simpa using hcth)]
      by_cases h3 : g.homeTeamSpread ≥ -16
      · rw [if_pos h3]
        by_cases h4 : (!(gameStartedBy g now)) = true
        · rw [if_pos h4]
          refine eligAwayCheck_adds db now playoff cfp used g _ t ha hused ?_ hcfp
            hspread hstart
          dsimp only
          have hniq : t.id ∉ acc.2 ++ [th.id] := by
            intro hm
            rcases List.mem_append.mp hm with hm | hm
            · exact (by simpa using hacc : t.id ∉ acc.2) hm
            · exact hthid (List.mem_singleton.mp hm).symm
          simpa using hniq
        · rw [if_neg h4]
          exact eligAwayCheck_adds db now playoff cfp used g acc t ha hused hacc hcfp
            hspread hstart
      · rw [if_neg h3]
        exact eligAwayCheck_adds db now playoff cfp used g acc t ha hused hacc hcfp
          hspread hstart
    · rw [if_neg h1]
      exact eligAwayCheck_adds db now playoff cfp used g acc t ha hused hacc hcfp
        hspread hstart

/-- C6.  The spread-cap boundary of the eligible-team computation: for a
game of the week and a participant team that clears every non-spread check
(present, not used in the phase, not CFP-blocked, game not started, unique
to its game), membership in the eligible-team list is *equivalent* to its
effective signed spread being `≥ -16` — home teams are measured by
`home_team_spread`, away teams by its negation, a spread of exactly `-16`
is eligible, anything strictly below is excluded, and an arbitrarily large
positive (underdog) spread passes. -/
theorem spread_cap_boundary_eligibility (db : DB) (now : Int) (uid : Nat)
    (week : Week) (g : Game) (t : Team)
    (hgid : (db.games.map (fun x => x.id)).Nodup)
    (hg : g ∈ weekGames db week.id)
    (hnotused : ¬ t.id ∈ usedTeamIds db uid week.id (is_week_playoff week))
    (hcfpP : is_week_playoff week = true → ¬ t.name ∈ get_cfp_eliminated_teams db)
    (hstart : gameStartedBy g now = false)
    (honly : ∀ g' ∈ weekGames db week.id, g' ≠ g →
      g'.homeTeamId ≠ some t.id ∧ g'.awayTeamId ≠ some t.id) :
    ((gameHomeTeam db g = some t → g.awayTeamId ≠ some t.id →
      (t ∈ eligible_teams db now uid week ↔ g.homeTeamSpread ≥ -16))
    ∧ (gameAwayTeam db g = some t → g.homeTeamId ≠ some t.id →
      (is_week_playoff week = true →
        ∀ th, gameHomeTeam db g = some th → ¬ th.name ∈ get_cfp_eliminated_teams db) →
      (t ∈ eligible_teams db now uid week ↔ -g.homeTeamSpread ≥ -16))) := by
  have husedb : (usedTeamIds db uid week.id (is_week_playoff week)).contains t.id
      = false := by simpa using hnotused
  have hcfpb : (is_week_playoff week
      && (if is_week_playoff week then get_cfp_eliminated_teams db else []).contains
          t.name) = false := by
    cases hpw : is_week_playoff week
    · simp
    · simpa [hpw] using hcfpP hpw
  obtain ⟨l1, l2, hsplit⟩ := List.append_of_mem hg
  have hWnd : (weekGames db week.id).Nodup :=
    (hgid.sublist ((List.filter_sublist db.games).map (fun x => x.id))).of_map
  have hgl1 : g ∉ l1 := by
    rw [hsplit, List.nodup_append] at hWnd
    intro hmem
    exact hWnd.2.2 hmem (List.mem_cons_self g l2)
  -- the accumulator reached right before `g` holds only ids of other games
  have hacc1 : ∀ x ∈ (l1.foldl (eligGameStep db now (is_week_playoff week)
      (if is_week_playoff week then get_cfp_eliminated_teams db else [])
      (usedTeamIds db uid week.id (is_week_playoff week))) ([], [])).2,
      x ≠ t.id := by
    intro x hx he
    rcases eligFold_mem_ids db now (is_week_playoff week) _ _ l1 ([], []) x hx
      with h0 | ⟨g', hg', hid⟩
    · cases h0
    · have hgne : g' ≠ g := fun hcontra => hgl1 (hcontra ▸ hg')
      have hg'mem : g' ∈ weekGames db week.id := by
        rw [hsplit]
        exact List.mem_append_left _ hg'
      subst he
      rcases hid with hid | hid
      · exact (honly g' hg'mem hgne).1 hid
      · exact (honly g' hg'mem hgne).2 hid
  have haccb : ((l1.foldl (eligGameStep db now (is_week_playoff week)
      (if is_week_playoff week then get_cfp_eliminated_teams db else [])
      (usedTeamIds db uid week.id (is_week_playoff week))) ([], [])).2).contains t.id
      = false := by
    rw [List.contains_eq_any_beq]
    rw [List.any_eq_false]
    intro x hx
    simpa using fun he => hacc1 x hx (Eq.symm he)
  have hfoldshape : eligible_teams db now uid week
      = ((weekGames db week.id).foldl (eligGameStep db now (is_week_playoff week)
        (if is_week_playoff week then get_cfp_eliminated_teams db else [])
        (usedTeamIds db uid week.id (is_week_playoff week))) ([], [])).1 := rfl
  constructor
  · intro hh hsideaway
    constructor
    · intro hmem
      rw [hfoldshape] at hmem
      rcases eligFold_mem db now (is_week_playoff week) _ _ (weekGames db week.id)
        ([], []) t hmem with h0 | ⟨g', hg', hadd⟩
      · cases h0
      · rcases hadd with ⟨hh', _, hsp, _⟩ | ⟨ha', _, hsp, _⟩
        · have hid' := gameHomeTeam_id db g' t hh'
          by_cases hgg : g' = g
          · rw [← hgg]
            exact hsp
          · exact absurd hid' (honly g' hg' hgg).1
        · have hid' := gameAwayTeam_id db g' t ha'
          by_cases hgg : g' = g
          · exact absurd (hgg ▸ hid') hsideaway
          · exact absurd hid' (honly g' hg' hgg).2
    · intro hsp
      rw [hfoldshape, hsplit, List.foldl_append, List.foldl_cons]
      apply eligFold_mono
      exact eligGameStep_adds_home db now (is_week_playoff week) _ _ _ g t hh
        husedb haccb hcfpb hsp hstart
  · intro ha hsidehome hnoskipP
    constructor
    · intro hmem
      rw [hfoldshape] at hmem
      rcases eligFold_mem db now (is_week_playoff week) _ _ (weekGames db week.id)
        ([], []) t hmem with h0 | ⟨g', hg', hadd⟩
      · cases h0
      · rcases hadd with ⟨hh', _, hsp, _⟩ | ⟨ha', _, hsp, _⟩
        · have hid' := gameHomeTeam_id db g' t hh'
          by_cases hgg : g' = g
          · exact absurd (hgg ▸ hid') hsidehome
          · exact absurd hid' (honly g' hg' hgg).1
        · have hid' := gameAwayTeam_id db g' t ha'
          by_cases hgg : g' = g
          · rw [← hgg]
            exact hsp
          · exact absurd hid' (honly g' hg' hgg).2
    · intro hsp
      have hnoskipb : ∀ th, gameHomeTeam db g = some th →
          (is_week_playoff week
            && (if is_week_playoff week then get_cfp_eliminated_teams db else []).contains
              th.name) = false := by
        intro th hth
        cases hpw : is_week_playoff week
        · simp
        · simpa [hpw] using hnoskipP hpw th hth
      rw [hfoldshape, hsplit, List.foldl_append, List.foldl_cons]
      apply eligFold_mono
      exact eligGameStep_adds_away db now (is_week_playoff week) _ _ _ g t ha
        husedb haccb hcfpb hsidehome hnoskipb hsp hstart

/-- The week used by the C6 witness. -/
def wkElig : Week :=
  { id := 1, weekNumber := 1, deadline := 100, isActive := true,
    isComplete := false, isPlayoffWeek := false }

/-- A pool with two games of the open week: `Alpha` favored by exactly 16
at home against `Beta`, and `Gamma` favored by 17 at home against
`Delta`. -/
def dbElig : DB :=
  { users := [{ id := 1, username := "alice", livesRemaining := 2,
                isEliminated := false, cumulativeSpread := 0 }],
    teams := [⟨1, "Alpha"⟩, ⟨2, "Beta"⟩, ⟨3, "Gamma"⟩, ⟨4, "Delta"⟩],
    weeks := [wkElig],
    games := [{ id := 1, weekId := 1, homeTeamId := some 1, awayTeamId := some 2,
                homeTeamName := none, awayTeamName := none,
                homeTeamSpread := -16, gameTime := some 200, homeTeamWon := none },
              { id := 2, weekId := 1, homeTeamId := some 3, awayTeamId := some 4,
                homeTeamName := none, awayTeamName := none,
                homeTeamSpread := -17, gameTime := some 200, homeTeamWon := none }],
    picks := [] }

/-- Witness for `spread_cap_boundary_eligibility`: at `dbElig`, the team
favored by exactly 16 is eligible, the team favored by 17 is not, and the
16-point underdog is eligible. -/
theorem spread_cap_boundary_eligibility_witness :
    ((⟨1, "Alpha"⟩ : Team) ∈ eligible_teams dbElig 10 1 wkElig)
    ∧ ¬ ((⟨3, "Gamma"⟩ : Team) ∈ eligible_teams dbElig 10 1 wkElig)
    ∧ ((⟨2, "Beta"⟩ : Team) ∈ eligible_teams dbElig 10 1 wkElig) := by
  have h1 := spread_cap_boundary_eligibility dbElig 10 1 wkElig
    { id := 1, weekId := 1, homeTeamId := some 1, awayTeamId := some 2,
      homeTeamName := none, awayTeamName := none,
      homeTeamSpread := -16, gameTime := some 200, homeTeamWon := none }
    ⟨1, "Alpha"⟩ (by decide) (by decide) (by decide) (by decide) (by decide) (by decide)
  have h2 := spread_cap_boundary_eligibility dbElig 10 1 wkElig
    { id := 2, weekId := 1, homeTeamId := some 3, awayTeamId := some 4,
      homeTeamName := none, awayTeamName := none,
      homeTeamSpread := -17, gameTime := some 200, homeTeamWon := none }
    ⟨3, "Gamma"⟩ (by decide) (by decide) (by decide) (by decide) (by decide) (by decide)
  have h3 := spread_cap_boundary_eligibility dbElig 10 1 wkElig
    { id := 1, weekId := 1, homeTeamId := some 1, awayTeamId := some 2,
      homeTeamName := none, awayTeamName := none,
      homeTeamSpread := -16, gameTime := some 200, homeTeamWon := none }
    ⟨2, "Beta"⟩ (by decide) (by decide) (by decide) (by decide) (by decide) (by decide)
  refine ⟨?_, ?_, ?_⟩
  · exact (h1.1 (by decide) (by decide)).mpr (by norm_num)
  · intro hmem
    have := (h2.1 (by decide) (by decide)).mp hmem
    norm_num at this
  · exact (h3.2 (by decide) (by decide) (by decide)).mpr (by norm_num)

end CFSurvivor
